import Mathlib

/-!
Verification of the kal-time partial date/time parser.

Shallow embedding of the `kal-time` Rust library (src/lib.rs, src/parse.rs).
The library is built on the `chrono` crate; the chrono primitives the code
calls (`chrono::format::parse` with `StrftimeItems`, the `Parsed` field
setters, `Parsed::to_naive_datetime_with_offset`, `FixedOffset::from_utc_datetime`,
`Local::from_local_datetime`) are embedded here following chrono's documented
semantics (chrono 0.4.3x: field setters validate ranges; numeric scan is
width-limited with whitespace trimming; a trailing remainder makes the whole
parse fail with `TOO_LONG`).

The system local timezone (`chrono::Local`) is an external input; it is
modelled as an explicit parameter `ltz : LocalTz` mapping a naive local
datetime to the chrono `LocalResult` of candidate UTC offsets.

Machine integers: chrono parses numerics into `i64` and years into `i32`;
these are modelled as `Int`/`Nat` with the explicit bounds the code checks.
-/

/-- chrono `ParseErrorKind` (the variants reachable through this code base). -/
inductive PErr where
  | tooShort
  | invalid
  | tooLong
  | outOfRange
  | impossible
  | notEnough
  | badFormat
deriving DecidableEq, Repr

deriving instance DecidableEq for Except

/-- A naive (offset-less) calendar date and wall-clock time,
as chrono's `NaiveDateTime`: year, month, day, hour, minute, second, nanosecond. -/
structure NaiveDT where
  year : Int
  month : Nat
  day : Nat
  hour : Nat
  minute : Nat
  second : Nat
  nano : Nat
deriving DecidableEq, Repr

/-- Gregorian leap year. -/
def isLeap (y : Int) : Bool :=
  y % 4 = 0 && (y % 100 ≠ 0 || y % 400 = 0)

/-- Days in a month of a given year (proleptic Gregorian calendar). -/
def daysInMonth (y : Int) (m : Nat) : Nat :=
  match m with
  | 1 => 31 | 3 => 31 | 5 => 31 | 7 => 31 | 8 => 31 | 10 => 31 | 12 => 31
  | 4 => 30 | 6 => 30 | 9 => 30 | 11 => 30
  | 2 => if isLeap y then 29 else 28
  | _ => 0

/-- chrono's `NaiveDate` year bounds: `MIN_YEAR = i32::MIN >> 13`,
`MAX_YEAR = i32::MAX >> 13`. -/
def chronoMinYear : Int := -262144
def chronoMaxYear : Int := 262143

/-- A (year, month, day) triple denotes a representable `NaiveDate`. -/
def validYMD (y : Int) (m d : Nat) : Bool :=
  chronoMinYear ≤ y && y ≤ chronoMaxYear &&
  1 ≤ m && m ≤ 12 && 1 ≤ d && d ≤ daysInMonth y m

/-- Days since 1970-01-01 of a civil date (Howard Hinnant's `days_from_civil`,
the algorithm underlying chrono's date → day-number conversion; Lean's `Int`
division is Euclidean, i.e. floor division for the positive divisors used
here, so the era needs no truncation adjustment). -/
def dateToDays (y : Int) (m d : Nat) : Int :=
  let y' : Int := if m ≤ 2 then y - 1 else y
  let era : Int := y' / 400
  let yoe : Int := y' - era * 400
  let mp : Nat := (m + 9) % 12
  let doy : Int := (153 * (mp : Int) + 2) / 5 + (d : Int) - 1
  let doe : Int := yoe * 365 + yoe / 4 - yoe / 100 + doy
  era * 146097 + doe - 719468

/-- Civil date from days since 1970-01-01 (Hinnant's `civil_from_days`). -/
def daysToDate (z0 : Int) : Int × Nat × Nat :=
  let z : Int := z0 + 719468
  let era : Int := z / 146097
  let doe : Int := z - era * 146097
  let yoe : Int := (doe - doe / 1460 + doe / 36524 - doe / 146096) / 365
  let y : Int := yoe + era * 400
  let doy : Int := doe - (365 * yoe + yoe / 4 - yoe / 100)
  let mp : Int := (5 * doy + 2) / 153
  let d : Int := doy - (153 * mp + 2) / 5 + 1
  let m : Int := if mp < 10 then mp + 3 else mp - 9
  (if m ≤ 2 then y + 1 else y, m.toNat, d.toNat)

/-- Seconds since the Unix epoch of a naive datetime read as UTC
(nanoseconds excluded; they are compared separately, as chrono does). -/
def naiveSecs (n : NaiveDT) : Int :=
  dateToDays n.year n.month n.day * 86400 +
    (n.hour : Int) * 3600 + (n.minute : Int) * 60 + (n.second : Int)

/-- Naive datetime from seconds since the epoch plus a nanosecond part
(chrono `NaiveDateTime::from_timestamp`, Euclidean division on negatives). -/
def naiveOfSecs (t : Int) (nano : Nat) : NaiveDT :=
  let d : Int := t.ediv 86400
  let r : Nat := (t.emod 86400).toNat
  let ymd := daysToDate d
  ⟨ymd.1, ymd.2.1, ymd.2.2, r / 3600, r % 3600 / 60, r % 60, nano⟩

/-- Timestamp range representable by chrono's `NaiveDateTime` (seconds). -/
def chronoMinTs : Int := dateToDays chronoMinYear 1 1 * 86400
def chronoMaxTs : Int := dateToDays chronoMaxYear 12 31 * 86400 + 86399

/-- chrono `NaiveDateTime::from_timestamp_opt` at nanosecond 0. -/
def naiveOfTimestamp (t : Int) : Option NaiveDT :=
  if chronoMinTs ≤ t ∧ t ≤ chronoMaxTs then some (naiveOfSecs t 0) else none

/-- chrono `DateTime<FixedOffset>`: a local wall-clock naive datetime plus a
fixed UTC offset in seconds east.  The absolute instant it denotes is
`naiveSecs naive - offset` seconds (plus `naive.nano` nanoseconds). -/
structure DateTimeFO where
  naive : NaiveDT
  offset : Int
deriving DecidableEq, Repr

/-- The absolute instant, in whole seconds since the epoch. -/
def instantSecs (dt : DateTimeFO) : Int := naiveSecs dt.naive - dt.offset

/-- chrono's `PartialOrd`/`Eq` on `DateTime` compare the absolute instant
(seconds, then nanoseconds), ignoring the offset.  `dtGt a b` is `a > b`. -/
def dtGt (a b : DateTimeFO) : Bool :=
  instantSecs b < instantSecs a ||
    (instantSecs a = instantSecs b && b.naive.nano < a.naive.nano)

/-- chrono `DateTime` equality: same absolute instant. -/
def dtEq (a b : DateTimeFO) : Bool :=
  instantSecs a = instantSecs b && a.naive.nano = b.naive.nano

/-- `dt + chrono::Duration::seconds k` (instant shifts, offset kept;
the local wall clock is recomputed from the shifted instant). -/
def dtAddSecs (dt : DateTimeFO) (k : Int) : DateTimeFO :=
  ⟨naiveOfSecs (naiveSecs dt.naive + k) dt.naive.nano, dt.offset⟩

-- Sanity checks for the calendar arithmetic (kept as `example`s: they are
-- part of the development's self-validation, not claim theorems).
example : dateToDays 1970 1 1 = 0 := by decide
example : dateToDays 2024 1 1 = 19723 := by decide
example : daysToDate 19723 = (2024, 1, 1) := by decide
example : naiveOfSecs 1704150000 0 = ⟨2024, 1, 1, 23, 0, 0, 0⟩ := by decide
example : daysToDate (-1) = (1969, 12, 31) := by decide
example : dateToDays 2014 7 8 = 16259 := by decide

/-- chrono `format::Parsed` (the fields this code base touches).  Values are
kept as `Int` (chrono stores `i32`/`u32`, written through `i64` setters). -/
structure Parsed where
  year : Option Int := none
  month : Option Int := none
  day : Option Int := none
  hour_div_12 : Option Int := none
  hour_mod_12 : Option Int := none
  minute : Option Int := none
  second : Option Int := none
  nanosecond : Option Int := none
  timestamp : Option Int := none
deriving DecidableEq, Repr

/-- `Parsed::new()`: every field absent. -/
def Parsed.new : Parsed := {}

/-- chrono `set_if_consistent`: setting an already-present field to a
different value fails with `IMPOSSIBLE`. -/
def setIfConsistent (old : Option Int) (v : Int) : Except PErr (Option Int) :=
  match old with
  | none => .ok (some v)
  | some o => if o = v then .ok (some v) else .error .impossible

/-- i64::MAX, the bound of chrono's numeric scanner accumulator. -/
def i64Max : Nat := 9223372036854775807

/-- chrono `Parsed::set_year` (value must fit `i32`). -/
def setYear (p : Parsed) (v : Int) : Except PErr Parsed :=
  if v < -2147483648 ∨ 2147483647 < v then .error .outOfRange
  else match setIfConsistent p.year v with
    | .error e => .error e
    | .ok o => .ok { p with year := o }

/-- chrono `Parsed::set_month` (1–12). -/
def setMonth (p : Parsed) (v : Int) : Except PErr Parsed :=
  if v < 1 ∨ 12 < v then .error .outOfRange
  else match setIfConsistent p.month v with
    | .error e => .error e
    | .ok o => .ok { p with month := o }

/-- chrono `Parsed::set_day` (1–31). -/
def setDay (p : Parsed) (v : Int) : Except PErr Parsed :=
  if v < 1 ∨ 31 < v then .error .outOfRange
  else match setIfConsistent p.day v with
    | .error e => .error e
    | .ok o => .ok { p with day := o }

/-- chrono `Parsed::set_hour` (0–23; stores `hour_div_12` and `hour_mod_12`). -/
def setHour (p : Parsed) (v : Int) : Except PErr Parsed :=
  if v < 0 ∨ 23 < v then .error .outOfRange
  else match setIfConsistent p.hour_div_12 (v / 12) with
    | .error e => .error e
    | .ok dv =>
      match setIfConsistent p.hour_mod_12 (v % 12) with
      | .error e => .error e
      | .ok md => .ok { p with hour_div_12 := dv, hour_mod_12 := md }

/-- chrono `Parsed::set_minute` (0–59). -/
def setMinute (p : Parsed) (v : Int) : Except PErr Parsed :=
  if v < 0 ∨ 59 < v then .error .outOfRange
  else match setIfConsistent p.minute v with
    | .error e => .error e
    | .ok o => .ok { p with minute := o }

/-- chrono `Parsed::set_second` (0–60, 60 being a leap second). -/
def setSecond (p : Parsed) (v : Int) : Except PErr Parsed :=
  if v < 0 ∨ 60 < v then .error .outOfRange
  else match setIfConsistent p.second v with
    | .error e => .error e
    | .ok o => .ok { p with second := o }

/-- chrono `Parsed::set_nanosecond` (0–999,999,999). -/
def setNanosecond (p : Parsed) (v : Int) : Except PErr Parsed :=
  if v < 0 ∨ 999999999 < v then .error .outOfRange
  else match setIfConsistent p.nanosecond v with
    | .error e => .error e
    | .ok o => .ok { p with nanosecond := o }

/-- chrono `Parsed::set_timestamp` (any i64). -/
def setTimestamp (p : Parsed) (v : Int) : Except PErr Parsed :=
  match setIfConsistent p.timestamp v with
  | .error e => .error e
  | .ok o => .ok { p with timestamp := o }

/-- The numeric strftime specifiers occurring in this code base. -/
inductive NumSpec where
  | Year | Month | Day | Hour | Minute | Second | Timestamp
deriving DecidableEq, Repr

/-- One item of a compiled strftime format (chrono `format::Item`): a literal
character, a whitespace run, a numeric specifier, or a malformed-format
marker. -/
inductive FItem where
  | lit (c : Char)
  | space
  | num (spec : NumSpec)
  | bad
deriving DecidableEq, Repr

/-- chrono `StrftimeItems`: compile a strftime format string into items.
Literal runs are emitted one character at a time and whitespace one
character at a time, which parses identically to chrono's grouped items. -/
def strfItems : List Char → List FItem
  | [] => []
  | '%' :: c :: rest =>
    (match c with
     | 'Y' => FItem.num .Year
     | 'm' => FItem.num .Month
     | 'd' => FItem.num .Day
     | 'H' => FItem.num .Hour
     | 'M' => FItem.num .Minute
     | 'S' => FItem.num .Second
     | 's' => FItem.num .Timestamp
     | _ => FItem.bad) :: strfItems rest
  | '%' :: [] => [FItem.bad]
  | c :: rest =>
    (if c.isWhitespace then FItem.space else FItem.lit c) :: strfItems rest

/-- Value of a decimal digit list (chrono's scan accumulator, on `Nat`). -/
def natOfDigits (ds : List Char) : Nat :=
  ds.foldl (fun a c => a * 10 + (c.toNat - 48)) 0

/-- chrono `scan::number(s, 1, width)`: skip is done by the caller; take up
to `width` leading ASCII digits (`none` = unbounded), requiring at least one;
accumulate into i64 (overflow ⇒ `OUT_OF_RANGE`). -/
def scanNumber (width : Option Nat) (s : List Char) : Except PErr (Nat × List Char) :=
  let maxw := width.getD s.length
  let ds := (s.take maxw).takeWhile (·.isDigit)
  if ds.isEmpty then
    (if s.isEmpty then .error .tooShort else .error .invalid)
  else if i64Max < natOfDigits ds then .error .outOfRange
  else .ok (natOfDigits ds, s.drop ds.length)

/-- chrono's signed numeric scan (used by `%Y`): an explicit `-`/`+` sign
lifts the width limit; otherwise scan unsigned with the spec's width. -/
def scanSigned (width : Option Nat) (s : List Char) : Except PErr (Int × List Char) :=
  match s with
  | [] => .error .tooShort
  | c :: rest =>
    if c = '-' then (scanNumber none rest).map (fun p => (-(p.1 : Int), p.2))
    else if c = '+' then (scanNumber none rest).map (fun p => ((p.1 : Int), p.2))
    else (scanNumber width s).map (fun p => ((p.1 : Int), p.2))

/-- Width and setter of each numeric specifier, as chrono's table:
`Year => (4, signed)`, `Month`/`Day`/`Hour`/`Minute`/`Second => (2, unsigned)`,
`Timestamp => (usize::MAX, unsigned)`. -/
def numWidth (spec : NumSpec) : Option Nat :=
  match spec with
  | .Year => some 4
  | .Timestamp => none
  | _ => some 2

/-- The setter chrono's numeric table assigns to each specifier. -/
def numSet (spec : NumSpec) : Parsed → Int → Except PErr Parsed :=
  match spec with
  | .Year => setYear
  | .Month => setMonth
  | .Day => setDay
  | .Hour => setHour
  | .Minute => setMinute
  | .Second => setSecond
  | .Timestamp => setTimestamp

def parseNum (spec : NumSpec) (p : Parsed) (s : List Char) :
    Except PErr (Parsed × List Char) :=
  let s := s.dropWhile (·.isWhitespace)
  let scanned :=
    match spec with
    | .Year => scanSigned (some 4) s
    | _ => (scanNumber (numWidth spec) s).map (fun (q : Nat × List Char) => ((q.1 : Int), q.2))
  match scanned with
  | .error e => .error e
  | .ok (v, r) =>
    match numSet spec p v with
    | .error e => .error e
    | .ok p2 => .ok (p2, r)

/-- Parse one format item against the input (chrono `parse_internal` body). -/
def parseItem (it : FItem) (p : Parsed) (s : List Char) :
    Except PErr (Parsed × List Char) :=
  match it with
  | .lit c =>
    match s with
    | [] => .error .tooShort
    | c' :: rest => if c' = c then .ok (p, rest) else .error .invalid
  | .space => .ok (p, s.dropWhile (·.isWhitespace))
  | .num spec => parseNum spec p s
  | .bad => .error .badFormat

/-- Fold the format items over the input, threading the `Parsed` state. -/
def parseItems : List FItem → Parsed → List Char → Except PErr (Parsed × List Char)
  | [], p, s => .ok (p, s)
  | it :: its, p, s =>
    match parseItem it p s with
    | .error e => .error e
    | .ok (p2, s2) => parseItems its p2 s2

/-- chrono `format::parse(&mut parsed, s, StrftimeItems::new(fmt))`:
all items must apply and the whole input must be consumed
(a non-empty remainder is `TOO_LONG`). -/
def chronoParse (fmt s : String) : Except PErr Parsed :=
  match parseItems (strfItems fmt.toList) Parsed.new s.toList with
  | .error e => .error e
  | .ok (p, rest) => if rest.isEmpty then .ok p else .error .tooLong

example : chronoParse "%Y-%m-%d" "2015-02-01" =
    .ok { year := some 2015, month := some 2, day := some 1 } := by decide
example : chronoParse "%Y" "9999999999" = .error .tooLong := by decide
example : chronoParse "%Y %M" "2015 toto" = .error .invalid := by decide
example : chronoParse "%H:%M" "10:15" =
    .ok { hour_div_12 := some 0, hour_mod_12 := some 10, minute := some 15 } := by decide
example : chronoParse "@%s" "@1704150000" =
    .ok { timestamp := some 1704150000 } := by decide

/-- The calendar/clock fields, named as the chrono `Numeric` variants used in
`src/parse.rs`. -/
inductive FieldNum where
  | Nanosecond | Second | Minute | Hour | Day | Month | Year
deriving DecidableEq, Repr

/-- The visit order of `parse_partial`'s completion loop (src/parse.rs line 47):
finest to coarsest. -/
def fieldOrder : List FieldNum :=
  [.Nanosecond, .Second, .Minute, .Hour, .Day, .Month, .Year]

/-- The `get` column of the loop's table: read the field from the reference
(the wrappers `year`‥`nanosecond` of src/parse.rs, which read the reference's
wall-clock fields in its own timezone). -/
def refGet (f : FieldNum) (r : DateTimeFO) : Int :=
  match f with
  | .Year => r.naive.year
  | .Month => (r.naive.month : Int)
  | .Day => (r.naive.day : Int)
  | .Hour => (r.naive.hour : Int)
  | .Minute => (r.naive.minute : Int)
  | .Second => (r.naive.second : Int)
  | .Nanosecond => (r.naive.nano : Int)

/-- The `min` column of the loop's table (zero/minimal default per field). -/
def fieldMin (f : FieldNum) : Int :=
  match f with
  | .Year => 1970
  | .Month => 1
  | .Day => 1
  | .Hour => 0
  | .Minute => 0
  | .Second => 0
  | .Nanosecond => 0

/-- The `replace` column: the field is absent from `parsed`
(for Hour: `hour_div_12.is_none() || hour_mod_12.is_none()`). -/
def fieldReplace (f : FieldNum) (p : Parsed) : Bool :=
  match f with
  | .Year => p.year.isNone
  | .Month => p.month.isNone
  | .Day => p.day.isNone
  | .Hour => p.hour_div_12.isNone || p.hour_mod_12.isNone
  | .Minute => p.minute.isNone
  | .Second => p.second.isNone
  | .Nanosecond => p.nanosecond.isNone

/-- The `set` column: the chrono `Parsed::set_*` function per field. -/
def fieldSet (f : FieldNum) (p : Parsed) (v : Int) : Except PErr Parsed :=
  match f with
  | .Year => setYear p v
  | .Month => setMonth p v
  | .Day => setDay p v
  | .Hour => setHour p v
  | .Minute => setMinute p v
  | .Second => setSecond p v
  | .Nanosecond => setNanosecond p v

/-- The completion loop of `parse_partial` (src/parse.rs lines 46–80): visit
the fields finest-to-coarsest; an absent field is set to the zero default
while `complete_with_zeroes` is still true, else to the reference's value; a
present field switches `complete_with_zeroes` off for the remaining
(coarser) fields. -/
def completeLoop (fs : List FieldNum) (p : Parsed) (ref : DateTimeFO)
    (completeWithZeroes : Bool) : Except PErr Parsed :=
  match fs with
  | [] => .ok p
  | f :: rest =>
    if fieldReplace f p then
      match fieldSet f p (if completeWithZeroes then fieldMin f else refGet f ref) with
      | .error e => .error e
      | .ok p2 => completeLoop rest p2 ref completeWithZeroes
    else
      completeLoop rest p ref false

/-- chrono `Parsed::to_naive_date` restricted to the (year, month, day) field
group, the only one this code base can populate; any other combination ends
in `NOT_ENOUGH`. -/
def toNaiveDate (p : Parsed) : Except PErr (Int × Nat × Nat) :=
  match p.year, p.month, p.day with
  | some y, some m, some d =>
    if validYMD y m.toNat d.toNat then .ok (y, m.toNat, d.toNat)
    else .error .outOfRange
  | _, _, _ => .error .notEnough

/-- chrono `Parsed::to_naive_time`: hour from `hour_div_12`/`hour_mod_12`,
minute required, second defaulting to 0, nanosecond defaulting to 0 (and
requiring a second); a parsed second of 60 is a leap second, stored as
second 59 with the nanosecond pushed past 10⁹. -/
def toNaiveTime (p : Parsed) : Except PErr (Nat × Nat × Nat × Nat) :=
  match p.hour_div_12 with
  | none => .error .notEnough
  | some dv =>
    if dv < 0 ∨ 1 < dv then .error .outOfRange
    else
      match p.hour_mod_12 with
      | none => .error .notEnough
      | some md =>
        if md < 0 ∨ 11 < md then .error .outOfRange
        else
          let hh := (dv * 12 + md).toNat
          match p.minute with
          | none => .error .notEnough
          | some mi =>
            if mi < 0 ∨ 59 < mi then .error .outOfRange
            else
              match p.second with
              | none =>
                if p.nanosecond.isSome then .error .notEnough
                else .ok (hh, mi.toNat, 0, 0)
              | some se =>
                if se < 0 ∨ 60 < se then .error .outOfRange
                else
                  let na := (p.nanosecond.getD 0)
                  if na < 0 ∨ 999999999 < na then .error .outOfRange
                  else if se = 60 then .ok (hh, mi.toNat, 59, na.toNat + 1000000000)
                  else .ok (hh, mi.toNat, se.toNat, na.toNat)

/-- Does a naive datetime agree with every calendar/clock field present in
`parsed`?  (chrono's consistency re-check when reconstructing from a
timestamp.) -/
def consistentWith (p : Parsed) (n : NaiveDT) : Bool :=
  (p.year.getD n.year = n.year) &&
  (p.month.getD (n.month : Int) = (n.month : Int)) &&
  (p.day.getD (n.day : Int) = (n.day : Int)) &&
  (p.hour_div_12.getD ((n.hour : Int) / 12) = (n.hour : Int) / 12) &&
  (p.hour_mod_12.getD ((n.hour : Int) % 12) = (n.hour : Int) % 12) &&
  (p.minute.getD (n.minute : Int) = (n.minute : Int)) &&
  (p.second.getD (n.second : Int) = (n.second : Int))

/-- chrono `Parsed::to_naive_datetime_with_offset(0)`: build the naive
datetime from the date and time field groups; if those groups are merely
incomplete but an absolute `timestamp` is present, reconstruct from the
timestamp instead (checking the present fields for consistency). -/
def toNaiveDT (p : Parsed) : Except PErr NaiveDT :=
  match toNaiveDate p, toNaiveTime p with
  | .ok (y, mo, d), .ok (h, mi, se, na) =>
    let dt : NaiveDT := ⟨y, mo, d, h, mi, se, na⟩
    match p.timestamp with
    | some ts => if naiveSecs dt = ts then .ok dt else .error .impossible
    | none => .ok dt
  | de, te =>
    match p.timestamp with
    | some ts =>
      if de = .error .outOfRange ∨ te = .error .outOfRange then .error .outOfRange
      else if de = .error .impossible ∨ te = .error .impossible then .error .impossible
      else
        match naiveOfTimestamp ts with
        | none => .error .outOfRange
        | some n => if consistentWith p n then .ok n else .error .impossible
    | none =>
      match de with
      | .error e => .error e
      | .ok _ => match te with
        | .error e => .error e
        | .ok _ => .error .notEnough

/-- chrono `LocalResult<offset>` for `Local.from_local_datetime`:
no candidate offset (spring-forward gap), a single candidate, or two
candidates during a fold (the first maps the wall clock to the earlier
absolute instant, i.e. carries the larger offset). -/
inductive LocalRes where
  | missing
  | single (offset : Int)
  | ambiguous (first second : Int)
deriving DecidableEq, Repr

/-- The system local timezone database (`chrono::Local`), an external input:
candidate UTC offsets of a naive local datetime. -/
def LocalTz := NaiveDT → LocalRes

/-- Result of `parse_partial`: chrono `ParseResult`, plus `crash` for an
execution that reaches a Rust `unreachable!()` panic. -/
inductive PResult where
  | ok (dt : DateTimeFO)
  | err (e : PErr)
  | crash
deriving DecidableEq, Repr

/-- The `LocalResult` match of src/parse.rs lines 97–101: a single candidate
offset is taken as-is, an ambiguous pair takes the first candidate
(`// pick earlier`), and the missing case is `unreachable!()` — a panic. -/
def resolveLocal (ltz : LocalTz) (naive : NaiveDT) : PResult :=
  match ltz naive with
  | .single o => .ok ⟨naive, o⟩
  | .ambiguous a _b => .ok ⟨naive, a⟩
  | .missing => .crash

/-- `parse::parse_partial(s, fmt, reference, complete_with_zeroes)`
(src/parse.rs lines 30–104), with the system timezone as the explicit final
argument:
1. run chrono's strftime parse of `s` against `fmt`;
2. if no absolute timestamp was parsed, run the completion loop;
3. build the naive datetime (`to_naive_datetime_with_offset(0)`);
4. a parsed absolute timestamp is returned as a UTC instant (offset 0);
5. otherwise a zero-offset reference keeps UTC, and any other reference
   resolves the naive datetime through the system local timezone. -/
def parsePart (s fmt : String) (reference : DateTimeFO)
    (completeWithZeroes : Bool) (ltz : LocalTz) : PResult :=
  match chronoParse fmt s with
  | .error e => .err e
  | .ok parsed =>
    let completed :=
      if parsed.timestamp.isNone then
        completeLoop fieldOrder parsed reference completeWithZeroes
      else .ok parsed
    match completed with
    | .error e => .err e
    | .ok p2 =>
      match toNaiveDT p2 with
      | .error e => .err e
      | .ok naive =>
        if p2.timestamp.isSome then .ok ⟨naive, 0⟩
        else if reference.offset = 0 then .ok ⟨naive, 0⟩
        else resolveLocal ltz naive

/-- The format catalog (src/lib.rs lines 6–26), in declared order. -/
def TIMEPARSER_FORMATS : List String :=
  ["%Y-%m-%d",
   "%Y-%m-%d %H:%M",
   "%Y-%m-%d %H:%M:%S",
   "%m-%d",
   "%m/%d",
   "%m-%d %H:%M:%S",
   "%m-%d %H:%M",
   "%d %H:%M",
   "%d %Hh%M",
   "%d %Hh",
   "%H:%M:%S",
   "%H:%M",
   "%Hh%M",
   "%Hh",
   "%Mm",
   "%M",
   "@%s"]

/-- Rust `format!("{:?}", s)` for the input strings occurring here
(no characters needing escapes). -/
def debugQuote (s : String) : String := "\"" ++ s ++ "\""

/-- Result of the public library calls: `Result<_, String>`, plus `crash`
for a Rust panic. -/
inductive KResult where
  | ok (dt : DateTimeFO)
  | err (msg : String)
  | crash
deriving DecidableEq, Repr

/-- The `for format in TIMEPARSER_FORMATS.iter()` loop of
`parse_with_reference` (src/lib.rs lines 39–45): first `Ok` from
`parse_partial` wins; any `Err` moves on to the next format; running out of
formats produces the "Could not parse time string" error. -/
def tryFormats (fs : List String) (timestr : String) (reference : DateTimeFO)
    (ltz : LocalTz) : KResult :=
  match fs with
  | [] => .err ("Could not parse time string: " ++ debugQuote timestr)
  | f :: rest =>
    match parsePart timestr f reference true ltz with
    | .ok dt => .ok dt
    | .crash => .crash
    | .err _ => tryFormats rest timestr reference ltz

/-- The formats the dispatch loop actually attempts, in order (observable in
the source through the per-iteration `log::trace!` call). -/
def tryFormatsTrace (fs : List String) (timestr : String) (reference : DateTimeFO)
    (ltz : LocalTz) : List String :=
  match fs with
  | [] => []
  | f :: rest =>
    f :: match parsePart timestr f reference true ltz with
         | .ok _ => []
         | .crash => []
         | .err _ => tryFormatsTrace rest timestr reference ltz

/-- `parse_with_reference` (src/lib.rs lines 28–46).  An empty input is
handed to `parse_partial("", "", reference, false)`, whose error case is
`map_err(|_| unreachable!())` — a panic; otherwise the catalog is tried in
order. -/
def parseWithReference (timestr : String) (reference : DateTimeFO)
    (ltz : LocalTz) : KResult :=
  if timestr = "" then
    match parsePart "" "" reference false ltz with
    | .ok dt => .ok dt
    | .err _ => .crash
    | .crash => .crash
  else
    tryFormats TIMEPARSER_FORMATS timestr reference ltz

/-- Left-pad a natural number's decimal form with zeroes to width `w`. -/
def padNat (w n : Nat) : String :=
  let s := toString n
  String.mk (List.replicate (w - s.length) '0') ++ s

/-- chrono `dt.format("%Y-%m-%d %H:%M:%S %z")` for the nonnegative-year
datetimes this code formats into error messages (`%z` is `±HHMM`). -/
def formatDT (dt : DateTimeFO) : String :=
  let n := dt.naive
  let off := dt.offset
  let sign := if off < 0 then "-" else "+"
  let a := off.natAbs
  padNat 4 n.year.toNat ++ "-" ++ padNat 2 n.month ++ "-" ++ padNat 2 n.day ++
    " " ++ padNat 2 n.hour ++ ":" ++ padNat 2 n.minute ++ ":" ++ padNat 2 n.second ++
    " " ++ sign ++ padNat 2 (a / 3600) ++ padNat 2 (a % 3600 / 60)

/-- The `InvalidTimespan` message of src/lib.rs lines 79–84 (note the source
formats the stop instant first). -/
def invalidTimespanMsg (timespan : String) (start stop : DateTimeFO) : String :=
  "Invalid timespan '" ++ timespan ++ "': end time (" ++ formatDT stop ++
    ") is before start time (" ++ formatDT start ++ ")"

/-- Rust `str::split_once("..")`: split at the first occurrence of the
two-character range separator. -/
def splitOnceDotDot : List Char → Option (List Char × List Char)
  | [] => none
  | '.' :: '.' :: rest => some ([], rest)
  | c :: rest =>
    match splitOnceDotDot rest with
    | none => none
    | some (a, b) => some (c :: a, b)

/-- Result of `parse_timespan_with_reference`. -/
inductive TSResult where
  | ok (startStop : DateTimeFO × DateTimeFO)
  | err (msg : String)
  | crash
deriving DecidableEq, Repr

/-- The pair resolution of `parse_timespan_with_reference` before the
ordering validation (the `match timespan.split_once("..")` block,
src/lib.rs lines 64–75): with a separator, the start side is resolved
against the caller's reference and the stop side against the just-resolved
start; without one, the stop is start plus `chrono::Duration::days(1)`. -/
def timespanPair (timespan : String) (reference : DateTimeFO) (ltz : LocalTz) :
    Except KResult (DateTimeFO × DateTimeFO) :=
  match splitOnceDotDot timespan.toList with
  | some (a, b) =>
    match parseWithReference (String.mk a) reference ltz with
    | .err m => .error (.err m)
    | .crash => .error .crash
    | .ok first =>
      match parseWithReference (String.mk b) first ltz with
      | .err m => .error (.err m)
      | .crash => .error .crash
      | .ok second => .ok (first, second)
  | none =>
    match parseWithReference timespan reference ltz with
    | .err m => .error (.err m)
    | .crash => .error .crash
    | .ok start => .ok (start, dtAddSecs start 86400)

/-- `parse_timespan_with_reference` (src/lib.rs lines 60–88): resolve the
pair, then reject `start > stop` with the `InvalidTimespan` message. -/
def parseTimespanWithReference (timespan : String) (reference : DateTimeFO)
    (ltz : LocalTz) : TSResult :=
  match timespanPair timespan reference ltz with
  | .error (.err m) => .err m
  | .error _ => .crash
  | .ok (start, stop) =>
    if dtGt start stop then .err (invalidTimespanMsg timespan start stop)
    else .ok (start, stop)

/-- A UTC-like system timezone, for exercising the code paths where the
system timezone plays no role. -/
def ltzUTC : LocalTz := fun _ => .single 0

/-- The reference `2014-07-08T09:10:11Z` used throughout the source's tests. -/
def refTest : DateTimeFO := ⟨⟨2014, 7, 8, 9, 10, 11, 0⟩, 0⟩

-- Sanity checks mirroring the source's own test suite (src/lib.rs
-- `test_simple`, `test_ts`, `test_timespan_end_uses_start_for_missing_fields`;
-- src/parse.rs `test_simple_utc`, `test_err`, `test_fill_right`).
example : parseWithReference "2014-07-08" refTest ltzUTC =
    .ok ⟨⟨2014, 7, 8, 0, 0, 0, 0⟩, 0⟩ := by decide
example : parseWithReference "2015-01-01 08:08" refTest ltzUTC =
    .ok ⟨⟨2015, 1, 1, 8, 8, 0, 0⟩, 0⟩ := by decide
example : parseWithReference "9h" refTest ltzUTC =
    .ok ⟨⟨2014, 7, 8, 9, 0, 0, 0⟩, 0⟩ := by decide
example : parseWithReference "30m" refTest ltzUTC =
    .ok ⟨⟨2014, 7, 8, 9, 30, 0, 0⟩, 0⟩ := by decide
example : parseWithReference "@1704150000" refTest ltzUTC =
    .ok ⟨⟨2024, 1, 1, 23, 0, 0, 0⟩, 0⟩ := by decide
example : parsePart "" "" refTest false ltzUTC = .ok ⟨⟨2014, 7, 8, 9, 10, 11, 0⟩, 0⟩ := by
  decide
example : parsePart "2015" "%Y" refTest false ltzUTC =
    .ok ⟨⟨2015, 7, 8, 9, 10, 11, 0⟩, 0⟩ := by decide
example : parsePart "2015-02-01 23:22:12" "%Y-%m-%d %H:%M:%S" refTest false ltzUTC =
    .ok ⟨⟨2015, 2, 1, 23, 22, 12, 0⟩, 0⟩ := by decide
example : parsePart "9999999999" "%Y" refTest false ltzUTC = .err .tooLong := by decide
example : parsePart "2015 toto" "%Y %M" refTest false ltzUTC = .err .invalid := by decide
example : parsePart "2015" "%Y" refTest true ltzUTC =
    .ok ⟨⟨2015, 1, 1, 0, 0, 0, 0⟩, 0⟩ := by decide
example : parsePart "12" "%H" refTest true ltzUTC =
    .ok ⟨⟨2014, 7, 8, 12, 0, 0, 0⟩, 0⟩ := by decide
example : parseTimespanWithReference "10:15..30" ⟨⟨2025, 10, 27, 6, 0, 0, 0⟩, 0⟩ ltzUTC =
    .ok (⟨⟨2025, 10, 27, 10, 15, 0, 0⟩, 0⟩, ⟨⟨2025, 10, 27, 10, 30, 0, 0⟩, 0⟩) := by decide
example : parseTimespanWithReference "2025-10-27 10:30..11:30" ⟨⟨2025, 1, 1, 0, 0, 0, 0⟩, 0⟩
    ltzUTC =
    .ok (⟨⟨2025, 10, 27, 10, 30, 0, 0⟩, 0⟩, ⟨⟨2025, 10, 27, 11, 30, 0, 0⟩, 0⟩) := by decide

/-- Field ranges guaranteed by chrono's `DateTime` accessors for any real
instant (what `year()`‥`nanosecond()` of a reference can return, leap
seconds aside). -/
def NaiveDT.InRange (n : NaiveDT) : Prop :=
  chronoMinYear ≤ n.year ∧ n.year ≤ chronoMaxYear ∧
  1 ≤ n.month ∧ n.month ≤ 12 ∧ 1 ≤ n.day ∧ n.day ≤ daysInMonth n.year n.month ∧
  n.hour ≤ 23 ∧ n.minute ≤ 59 ∧ n.second ≤ 59 ∧ n.nano ≤ 999999999

instance (n : NaiveDT) : Decidable n.InRange := by
  unfold NaiveDT.InRange; infer_instance

/-- Every field visited strictly before `f` (i.e. strictly finer than `f`)
is absent from `p`. -/
def earlierAllAbsent (p : Parsed) (f : FieldNum) : Bool :=
  (fieldOrder.takeWhile (· ≠ f)).all (fun g => fieldReplace g p)

/-- The value the completion loop writes into an absent field `f`: the
zero/minimal default exactly when `complete_with_zeroes` started true and no
finer field was present; the reference's field otherwise. -/
def fillVal (p : Parsed) (ref : DateTimeFO) (cwz : Bool) (f : FieldNum) : Int :=
  if cwz && earlierAllAbsent p f then fieldMin f else refGet f ref

/-- Closed form of the completion loop's result: present fields are kept,
absent ones are filled with `fillVal`, the timestamp is untouched. -/
def specComplete (p : Parsed) (ref : DateTimeFO) (cwz : Bool) : Parsed :=
  { year := some (p.year.getD (fillVal p ref cwz .Year)),
    month := some (p.month.getD (fillVal p ref cwz .Month)),
    day := some (p.day.getD (fillVal p ref cwz .Day)),
    hour_div_12 :=
      if fieldReplace .Hour p then some (fillVal p ref cwz .Hour / 12) else p.hour_div_12,
    hour_mod_12 :=
      if fieldReplace .Hour p then some (fillVal p ref cwz .Hour % 12) else p.hour_mod_12,
    minute := some (p.minute.getD (fillVal p ref cwz .Minute)),
    second := some (p.second.getD (fillVal p ref cwz .Second)),
    nanosecond := some (p.nanosecond.getD (fillVal p ref cwz .Nanosecond)),
    timestamp := p.timestamp }

theorem daysInMonth_le_31 (y : Int) (m : Nat) : daysInMonth y m ≤ 31 := by
  unfold daysInMonth
  split <;> first | omega | (split <;> omega)


/-- View of one field's stored components in a `Parsed` (Hour occupies two
slots; every other field's second slot is a constant `none`). -/
def fcontent (f : FieldNum) (p : Parsed) : Option Int × Option Int :=
  match f with
  | .Year => (p.year, none)
  | .Month => (p.month, none)
  | .Day => (p.day, none)
  | .Hour => (p.hour_div_12, p.hour_mod_12)
  | .Minute => (p.minute, none)
  | .Second => (p.second, none)
  | .Nanosecond => (p.nanosecond, none)

/-- The components a successful `fieldSet f _ v` stores. -/
def mkContent (f : FieldNum) (v : Int) : Option Int × Option Int :=
  match f with
  | .Hour => (some (v / 12), some (v % 12))
  | _ => (some v, none)

/-- The domain check of the chrono setter behind `fieldSet f _ v`. -/
def fieldInRange (f : FieldNum) (v : Int) : Prop :=
  match f with
  | .Year => ¬(v < -2147483648 ∨ 2147483647 < v)
  | .Month => ¬(v < 1 ∨ 12 < v)
  | .Day => ¬(v < 1 ∨ 31 < v)
  | .Hour => ¬(v < 0 ∨ 23 < v)
  | .Minute => ¬(v < 0 ∨ 59 < v)
  | .Second => ¬(v < 0 ∨ 60 < v)
  | .Nanosecond => ¬(v < 0 ∨ 999999999 < v)

/-- The record update a successful `fieldSet f _ v` performs. -/
def writeF (f : FieldNum) (v : Int) (p : Parsed) : Parsed :=
  match f with
  | .Year => { p with year := some v }
  | .Month => { p with month := some v }
  | .Day => { p with day := some v }
  | .Hour => { p with hour_div_12 := some (v / 12), hour_mod_12 := some (v % 12) }
  | .Minute => { p with minute := some v }
  | .Second => { p with second := some v }
  | .Nanosecond => { p with nanosecond := some v }

theorem fieldMin_inRange (f : FieldNum) : fieldInRange f (fieldMin f) := by
  cases f <;> simp only [fieldInRange, fieldMin] <;> decide

theorem fieldSet_ok (f : FieldNum) (p : Parsed) (v : Int)
    (hrep : fieldReplace f p = true)
    (hsync : p.hour_div_12.isNone = p.hour_mod_12.isNone)
    (hv : fieldInRange f v) :
    fieldSet f p v = .ok (writeF f v p) := by
  cases f <;>
    simp_all [fieldReplace, fieldSet, setYear, setMonth, setDay, setHour,
      setMinute, setSecond, setNanosecond, setIfConsistent, writeF, fieldInRange,
      Option.isNone_iff_eq_none]

theorem writeF_replace (f g : FieldNum) (v : Int) (p : Parsed) :
    fieldReplace g (writeF f v p) = if g = f then false else fieldReplace g p := by
  cases f <;> cases g <;> simp [writeF, fieldReplace]

theorem writeF_fcontent (f g : FieldNum) (v : Int) (p : Parsed) :
    fcontent g (writeF f v p) = if g = f then mkContent f v else fcontent g p := by
  cases f <;> cases g <;> simp [writeF, fcontent, mkContent]

theorem writeF_timestamp (f : FieldNum) (v : Int) (p : Parsed) :
    (writeF f v p).timestamp = p.timestamp := by
  cases f <;> simp [writeF]

theorem writeF_sync (f : FieldNum) (v : Int) (p : Parsed)
    (h : p.hour_div_12.isNone = p.hour_mod_12.isNone) :
    (writeF f v p).hour_div_12.isNone = (writeF f v p).hour_mod_12.isNone := by
  cases f <;> simp_all [writeF]

theorem all_congr2 {α} (l : List α) (f g : α → Bool)
    (h : ∀ a ∈ l, f a = g a) : l.all f = l.all g := by
  induction l with
  | nil => rfl
  | cons a t ih =>
    simp only [List.all_cons, h a (by simp), ih (fun b hb => h b (by simp [hb]))]

theorem mem_of_mem_takeWhile {α} (q : α → Bool) (l : List α) (a : α)
    (h : a ∈ l.takeWhile q) : a ∈ l := by
  induction l with
  | nil => simp at h
  | cons b t ih =>
    rw [List.takeWhile_cons] at h
    by_cases hb : q b = true
    · rw [if_pos hb] at h
      rcases List.mem_cons.mp h with h1 | h2
      · exact List.mem_cons.mpr (Or.inl h1)
      · exact List.mem_cons.mpr (Or.inr (ih h2))
    · rw [if_neg hb] at h; simp at h

/-- The heart of the completion loop: for any duplicate-free visit list, the
loop succeeds and each visited absent field receives the zero default when
the flag is still set and no earlier-visited field was present, the
reference's value otherwise; present and unvisited fields are untouched. -/
theorem completeLoop_char (ref : DateTimeFO) (L : List FieldNum) :
    L.Nodup →
    ∀ (p : Parsed) (z : Bool),
    (∀ f ∈ L, fieldInRange f (refGet f ref)) →
    p.hour_div_12.isNone = p.hour_mod_12.isNone →
    ∃ q, completeLoop L p ref z = .ok q ∧
      q.timestamp = p.timestamp ∧
      ∀ g, fcontent g q =
        if g ∈ L ∧ fieldReplace g p = true then
          mkContent g
            (if z && (L.takeWhile (fun f => f ≠ g)).all (fun f => fieldReplace f p)
             then fieldMin g else refGet g ref)
        else fcontent g p := by
  induction L with
  | nil =>
    intro _ p z _ _
    exact ⟨p, rfl, rfl, by simp⟩
  | cons f rest ih =>
    intro hnd p z hrange hsync
    have hfnotin : f ∉ rest := (List.nodup_cons.mp hnd).1
    have hnd' : rest.Nodup := (List.nodup_cons.mp hnd).2
    have hrange' : ∀ g ∈ rest, fieldInRange g (refGet g ref) :=
      fun g hg => hrange g (List.mem_cons_of_mem f hg)
    by_cases hrep : fieldReplace f p = true
    · -- the field is absent: it is written, then the loop continues
      set v : Int := if z then fieldMin f else refGet f ref with hv_def
      have hv : fieldInRange f v := by
        rw [hv_def]; split
        · exact fieldMin_inRange f
        · exact hrange f (List.mem_cons_self f rest)
      have hset : fieldSet f p v = .ok (writeF f v p) := fieldSet_ok f p v hrep hsync hv
      have hloop : completeLoop (f :: rest) p ref z =
          completeLoop rest (writeF f v p) ref z := by
        simp only [completeLoop]
        rw [if_pos hrep, ← hv_def, hset]
      obtain ⟨q, hq, hts, hchar⟩ :=
        ih hnd' (writeF f v p) z hrange' (writeF_sync f v p hsync)
      refine ⟨q, by rw [hloop, hq], by rw [hts, writeF_timestamp], ?_⟩
      intro g
      by_cases hgf : g = f
      · -- the field just written: not in rest, content is the written value
        subst hgf
        have h1 := hchar g
        have hc1 : ¬(g ∈ rest ∧ fieldReplace g (writeF g v p) = true) :=
          fun hc => hfnotin hc.1
        rw [if_neg hc1] at h1
        rw [h1, writeF_fcontent]
        simp [hrep, List.takeWhile_cons, hv_def]
      · have h1 := hchar g
        have hrepg : fieldReplace g (writeF f v p) = fieldReplace g p := by
          rw [writeF_replace, if_neg hgf]
        have hfg : ¬(f = g) := fun h => hgf h.symm
        by_cases hg : g ∈ rest
        · by_cases hgrep : fieldReplace g p = true
          · have hc1 : g ∈ rest ∧ fieldReplace g (writeF f v p) = true :=
              ⟨hg, by rw [hrepg, hgrep]⟩
            rw [if_pos hc1] at h1
            have htk : (f :: rest).takeWhile (fun x => x ≠ g) =
                f :: rest.takeWhile (fun x => x ≠ g) := by
              rw [List.takeWhile_cons]; simp [hfg]
            have hall : ((rest.takeWhile (fun x => x ≠ g)).all
                  (fun x => fieldReplace x (writeF f v p))) =
                (rest.takeWhile (fun x => x ≠ g)).all (fun x => fieldReplace x p) := by
              refine all_congr2 _ _ _ (fun b hb => ?_)
              have hbr : b ∈ rest := mem_of_mem_takeWhile _ _ _ hb
              have hbf : ¬(b = f) := fun hbf2 => hfnotin (hbf2 ▸ hbr)
              rw [writeF_replace, if_neg hbf]
            rw [h1, hall]
            have hc2 : g ∈ f :: rest ∧ fieldReplace g p = true :=
              ⟨List.mem_cons_of_mem f hg, hgrep⟩
            rw [if_pos hc2, htk, List.all_cons, hrep, Bool.true_and]
          · have hc1 : ¬(g ∈ rest ∧ fieldReplace g (writeF f v p) = true) :=
              fun hc => hgrep (hrepg ▸ hc.2)
            rw [if_neg hc1] at h1
            rw [h1, writeF_fcontent, if_neg hgf]
            have hc2 : ¬(g ∈ f :: rest ∧ fieldReplace g p = true) :=
              fun hc => hgrep hc.2
            rw [if_neg hc2]
        · have hc1 : ¬(g ∈ rest ∧ fieldReplace g (writeF f v p) = true) :=
            fun hc => hg hc.1
          rw [if_neg hc1] at h1
          rw [h1, writeF_fcontent, if_neg hgf]
          have hc2 : ¬(g ∈ f :: rest ∧ fieldReplace g p = true) :=
            fun hc => (List.mem_cons.mp hc.1).elim hgf hg
          rw [if_neg hc2]
    · -- the field is present: the flag drops to false for the rest
      have hrepf : fieldReplace f p = false := by simpa using hrep
      have hloop : completeLoop (f :: rest) p ref z = completeLoop rest p ref false := by
        simp only [completeLoop]
        rw [if_neg hrep]
      obtain ⟨q, hq, hts, hchar⟩ := ih hnd' p false hrange' hsync
      refine ⟨q, by rw [hloop, hq], hts, ?_⟩
      intro g
      have h1 := hchar g
      by_cases hgf : g = f
      · subst hgf
        have hc1 : ¬(g ∈ rest ∧ fieldReplace g p = true) :=
          fun hc => hfnotin hc.1
        rw [if_neg hc1] at h1
        have hc2 : ¬(g ∈ g :: rest ∧ fieldReplace g p = true) :=
          fun hc => hrep hc.2
        rw [h1, if_neg hc2]
      · have hfg : ¬(f = g) := fun h => hgf h.symm
        by_cases hg : g ∈ rest
        · by_cases hgrep : fieldReplace g p = true
          · have hc1 : g ∈ rest ∧ fieldReplace g p = true := ⟨hg, hgrep⟩
            rw [if_pos hc1] at h1
            have htk : (f :: rest).takeWhile (fun x => x ≠ g) =
                f :: rest.takeWhile (fun x => x ≠ g) := by
              rw [List.takeWhile_cons]; simp [hfg]
            rw [Bool.false_and, if_neg Bool.false_ne_true] at h1
            have hc2 : g ∈ f :: rest ∧ fieldReplace g p = true :=
              ⟨List.mem_cons_of_mem f hg, hgrep⟩
            rw [h1, if_pos hc2, htk, List.all_cons, hrepf, Bool.false_and,
              Bool.and_false, if_neg Bool.false_ne_true]
          · have hc1 : ¬(g ∈ rest ∧ fieldReplace g p = true) := fun hc => hgrep hc.2
            rw [if_neg hc1] at h1
            have hc2 : ¬(g ∈ f :: rest ∧ fieldReplace g p = true) :=
              fun hc => hgrep hc.2
            rw [h1, if_neg hc2]
        · have hc1 : ¬(g ∈ rest ∧ fieldReplace g p = true) := fun hc => hg hc.1
          rw [if_neg hc1] at h1
          have hc2 : ¬(g ∈ f :: rest ∧ fieldReplace g p = true) :=
            fun hc => (List.mem_cons.mp hc.1).elim hgf hg
          rw [h1, if_neg hc2]

theorem parsedExt (a b : Parsed) (h1 : a.year = b.year) (h2 : a.month = b.month)
    (h3 : a.day = b.day) (h4 : a.hour_div_12 = b.hour_div_12)
    (h5 : a.hour_mod_12 = b.hour_mod_12) (h6 : a.minute = b.minute)
    (h7 : a.second = b.second) (h8 : a.nanosecond = b.nanosecond)
    (h9 : a.timestamp = b.timestamp) : a = b := by
  cases a; cases b; simp_all

/-- The completion loop of `parse_partial`, in closed form: it succeeds on
any `Parsed` with consistent hour components against an in-range reference,
keeps every present field, and fills each absent field with the zero default
exactly when `complete_with_zeroes` was passed true and every finer field is
also absent, with the reference's field value otherwise. -/
theorem completeLoop_spec (p : Parsed) (ref : DateTimeFO) (cwz : Bool)
    (hr : ref.naive.InRange)
    (hH : p.hour_div_12.isNone = p.hour_mod_12.isNone) :
    completeLoop fieldOrder p ref cwz = .ok (specComplete p ref cwz) := by
  have hrange : ∀ f ∈ fieldOrder, fieldInRange f (refGet f ref) := by
    obtain ⟨h1, h2, h3, h4, h5, h6, h7, h8, h9, h10⟩ := hr
    have hdm := daysInMonth_le_31 ref.naive.year ref.naive.month
    simp only [chronoMinYear, chronoMaxYear] at h1 h2
    intro f _
    cases f <;> simp only [fieldInRange, refGet] <;> omega
  obtain ⟨q, hq, hts, hchar⟩ :=
    completeLoop_char ref fieldOrder (by decide) p cwz hrange hH
  rw [hq]
  congr 1
  refine parsedExt q (specComplete p ref cwz) ?_ ?_ ?_ ?_ ?_ ?_ ?_ ?_ ?_
  · have h := hchar .Year
    rcases hy : p.year with _ | w
    · have hc : FieldNum.Year ∈ fieldOrder ∧ fieldReplace .Year p = true :=
        ⟨by decide, by simp [fieldReplace, hy]⟩
      rw [if_pos hc] at h
      simp only [fcontent, mkContent] at h
      simp only [specComplete, hy, Option.getD_none, fillVal, earlierAllAbsent]
      exact ((Prod.mk.injEq _ _ _ _).mp h).1
    · have hc : ¬(FieldNum.Year ∈ fieldOrder ∧ fieldReplace .Year p = true) := by
        simp [fieldReplace, hy]
      rw [if_neg hc] at h
      simp only [fcontent] at h
      simp only [specComplete, hy, Option.getD_some]
      exact ((Prod.mk.injEq _ _ _ _).mp h).1.trans hy
  · have h := hchar .Month
    rcases hy : p.month with _ | w
    · have hc : FieldNum.Month ∈ fieldOrder ∧ fieldReplace .Month p = true :=
        ⟨by decide, by simp [fieldReplace, hy]⟩
      rw [if_pos hc] at h
      simp only [fcontent, mkContent] at h
      simp only [specComplete, hy, Option.getD_none, fillVal, earlierAllAbsent]
      exact ((Prod.mk.injEq _ _ _ _).mp h).1
    · have hc : ¬(FieldNum.Month ∈ fieldOrder ∧ fieldReplace .Month p = true) := by
        simp [fieldReplace, hy]
      rw [if_neg hc] at h
      simp only [fcontent] at h
      simp only [specComplete, hy, Option.getD_some]
      exact ((Prod.mk.injEq _ _ _ _).mp h).1.trans hy
  · have h := hchar .Day
    rcases hy : p.day with _ | w
    · have hc : FieldNum.Day ∈ fieldOrder ∧ fieldReplace .Day p = true :=
        ⟨by decide, by simp [fieldReplace, hy]⟩
      rw [if_pos hc] at h
      simp only [fcontent, mkContent] at h
      simp only [specComplete, hy, Option.getD_none, fillVal, earlierAllAbsent]
      exact ((Prod.mk.injEq _ _ _ _).mp h).1
    · have hc : ¬(FieldNum.Day ∈ fieldOrder ∧ fieldReplace .Day p = true) := by
        simp [fieldReplace, hy]
      rw [if_neg hc] at h
      simp only [fcontent] at h
      simp only [specComplete, hy, Option.getD_some]
      exact ((Prod.mk.injEq _ _ _ _).mp h).1.trans hy
  · have h := hchar .Hour
    by_cases hh : fieldReplace .Hour p = true
    · have hc : FieldNum.Hour ∈ fieldOrder ∧ fieldReplace .Hour p = true :=
        ⟨by decide, hh⟩
      rw [if_pos hc] at h
      simp only [fcontent, mkContent] at h
      simp only [specComplete, if_pos hh, fillVal, earlierAllAbsent]
      exact ((Prod.mk.injEq _ _ _ _).mp h).1
    · have hc : ¬(FieldNum.Hour ∈ fieldOrder ∧ fieldReplace .Hour p = true) :=
        fun hc2 => hh hc2.2
      rw [if_neg hc] at h
      simp only [fcontent] at h
      simp only [specComplete, if_neg hh]
      exact ((Prod.mk.injEq _ _ _ _).mp h).1
  · have h := hchar .Hour
    by_cases hh : fieldReplace .Hour p = true
    · have hc : FieldNum.Hour ∈ fieldOrder ∧ fieldReplace .Hour p = true :=
        ⟨by decide, hh⟩
      rw [if_pos hc] at h
      simp only [fcontent, mkContent] at h
      simp only [specComplete, if_pos hh, fillVal, earlierAllAbsent]
      exact ((Prod.mk.injEq _ _ _ _).mp h).2
    · have hc : ¬(FieldNum.Hour ∈ fieldOrder ∧ fieldReplace .Hour p = true) :=
        fun hc2 => hh hc2.2
      rw [if_neg hc] at h
      simp only [fcontent] at h
      simp only [specComplete, if_neg hh]
      exact ((Prod.mk.injEq _ _ _ _).mp h).2
  · have h := hchar .Minute
    rcases hy : p.minute with _ | w
    · have hc : FieldNum.Minute ∈ fieldOrder ∧ fieldReplace .Minute p = true :=
        ⟨by decide, by simp [fieldReplace, hy]⟩
      rw [if_pos hc] at h
      simp only [fcontent, mkContent] at h
      simp only [specComplete, hy, Option.getD_none, fillVal, earlierAllAbsent]
      exact ((Prod.mk.injEq _ _ _ _).mp h).1
    · have hc : ¬(FieldNum.Minute ∈ fieldOrder ∧ fieldReplace .Minute p = true) := by
        simp [fieldReplace, hy]
      rw [if_neg hc] at h
      simp only [fcontent] at h
      simp only [specComplete, hy, Option.getD_some]
      exact ((Prod.mk.injEq _ _ _ _).mp h).1.trans hy
  · have h := hchar .Second
    rcases hy : p.second with _ | w
    · have hc : FieldNum.Second ∈ fieldOrder ∧ fieldReplace .Second p = true :=
        ⟨by decide, by simp [fieldReplace, hy]⟩
      rw [if_pos hc] at h
      simp only [fcontent, mkContent] at h
      simp only [specComplete, hy, Option.getD_none, fillVal, earlierAllAbsent]
      exact ((Prod.mk.injEq _ _ _ _).mp h).1
    · have hc : ¬(FieldNum.Second ∈ fieldOrder ∧ fieldReplace .Second p = true) := by
        simp [fieldReplace, hy]
      rw [if_neg hc] at h
      simp only [fcontent] at h
      simp only [specComplete, hy, Option.getD_some]
      exact ((Prod.mk.injEq _ _ _ _).mp h).1.trans hy
  · have h := hchar .Nanosecond
    rcases hy : p.nanosecond with _ | w
    · have hc : FieldNum.Nanosecond ∈ fieldOrder ∧ fieldReplace .Nanosecond p = true :=
        ⟨by decide, by simp [fieldReplace, hy]⟩
      rw [if_pos hc] at h
      simp only [fcontent, mkContent] at h
      simp only [specComplete, hy, Option.getD_none, fillVal, earlierAllAbsent]
      exact ((Prod.mk.injEq _ _ _ _).mp h).1
    · have hc : ¬(FieldNum.Nanosecond ∈ fieldOrder ∧ fieldReplace .Nanosecond p = true) := by
        simp [fieldReplace, hy]
      rw [if_neg hc] at h
      simp only [fcontent] at h
      simp only [specComplete, hy, Option.getD_some]
      exact ((Prod.mk.injEq _ _ _ _).mp h).1.trans hy
  · simp only [specComplete]
    exact hts

/-- `to_naive_datetime_with_offset(0)` on a fully-populated field set with
in-range values: it reconstructs exactly those fields. -/
theorem toNaiveDT_fields (y : Int) (mo d h mi se na : Nat)
    (hy1 : chronoMinYear ≤ y) (hy2 : y ≤ chronoMaxYear)
    (hm1 : 1 ≤ mo) (hm2 : mo ≤ 12) (hd1 : 1 ≤ d) (hd2 : d ≤ daysInMonth y mo)
    (hh : h ≤ 23) (hmi : mi ≤ 59) (hse : se ≤ 59) (hna : na ≤ 999999999) :
    toNaiveDT ⟨some y, some (mo : Int), some (d : Int), some ((h : Int) / 12),
      some ((h : Int) % 12), some (mi : Int), some (se : Int), some (na : Int), none⟩ =
    .ok ⟨y, mo, d, h, mi, se, na⟩ := by
  have hv : validYMD y mo d = true := by
    simp only [validYMD, Bool.and_eq_true, decide_eq_true_eq]
    refine ⟨⟨⟨⟨⟨hy1, hy2⟩, hm1⟩, hm2⟩, hd1⟩, hd2⟩
  have hdate : toNaiveDate ⟨some y, some (mo : Int), some (d : Int), some ((h : Int) / 12),
      some ((h : Int) % 12), some (mi : Int), some (se : Int), some (na : Int), none⟩ =
      .ok (y, mo, d) := by
    simp only [toNaiveDate, Int.toNat_natCast, hv, if_true]
  have htime : toNaiveTime ⟨some y, some (mo : Int), some (d : Int), some ((h : Int) / 12),
      some ((h : Int) % 12), some (mi : Int), some (se : Int), some (na : Int), none⟩ =
      .ok (h, mi, se, na) := by
    simp only [toNaiveTime, Option.getD_some]
    rw [if_neg (by omega), if_neg (by omega), if_neg (by omega),
      if_neg (by omega), if_neg (by omega)]
    have h60 : ¬((se : Int) = 60) := by omega
    rw [if_neg h60]
    have hh12 : ((h : Int) / 12 * 12 + (h : Int) % 12).toNat = h := by omega
    simp only [hh12, Int.toNat_natCast]
  simp only [toNaiveDT, hdate, htime]

/-- `parse_partial("", "", reference, false)`: every field is borrowed from
the reference, rebuilding the reference's wall clock; a zero-offset
reference returns it at UTC, any other goes through the system timezone. -/
theorem parsePart_empty (ref : DateTimeFO) (ltz : LocalTz) (hr : ref.naive.InRange) :
    parsePart "" "" ref false ltz =
      if ref.offset = 0 then .ok ⟨ref.naive, 0⟩ else resolveLocal ltz ref.naive := by
  have hS : specComplete Parsed.new ref false =
      ⟨some ref.naive.year, some (ref.naive.month : Int), some (ref.naive.day : Int),
       some ((ref.naive.hour : Int) / 12), some ((ref.naive.hour : Int) % 12),
       some (ref.naive.minute : Int), some (ref.naive.second : Int),
       some (ref.naive.nano : Int), none⟩ := by
    simp [specComplete, fillVal, Parsed.new, fieldReplace, refGet]
  have hcl : completeLoop fieldOrder
      (⟨none, none, none, none, none, none, none, none, none⟩ : Parsed) ref false =
      .ok (⟨some ref.naive.year, some (ref.naive.month : Int), some (ref.naive.day : Int),
        some ((ref.naive.hour : Int) / 12), some ((ref.naive.hour : Int) % 12),
        some (ref.naive.minute : Int), some (ref.naive.second : Int),
        some (ref.naive.nano : Int), none⟩ : Parsed) :=
    (completeLoop_spec Parsed.new ref false hr rfl).trans (by rw [hS])
  obtain ⟨h1, h2, h3, h4, h5, h6, h7, h8, h9, h10⟩ := hr
  have hnd := toNaiveDT_fields ref.naive.year ref.naive.month ref.naive.day
    ref.naive.hour ref.naive.minute ref.naive.second ref.naive.nano
    h1 h2 h3 h4 h5 h6 h7 h8 h9 h10
  have hcp : chronoParse "" "" =
      .ok (⟨none, none, none, none, none, none, none, none, none⟩ : Parsed) := rfl
  simp only [parsePart, hcp, Option.isNone_none, if_true, hcl, hnd, Option.isSome_none,
    Bool.false_eq_true, if_false]

/-- C1: Field completion visits nanosecond, second, minute, hour, day, month,
year — finest to coarsest — carrying `use_zero` initialized to `zero_default`:
every absent field gets its zero/minimal default (1970/1/1/0/0/0/0) while
`use_zero` is still true (equivalently: while every finer field is also
absent), and the reference's field once `use_zero` was cleared by some
present finer field; present fields clear `use_zero` for all coarser fields.
Concretely, hour-only "12" against 2014-07-08T09:10:11Z (zero_default true)
completes to 2014-07-08T12:00:00+00:00 and year-only "2015" to
2015-01-01T00:00:00+00:00. -/
theorem c1_field_completion :
    (∀ (p : Parsed) (ref : DateTimeFO) (zeroDefault : Bool),
        ref.naive.InRange →
        p.hour_div_12.isNone = p.hour_mod_12.isNone →
        completeLoop fieldOrder p ref zeroDefault = .ok (specComplete p ref zeroDefault)) ∧
    fieldOrder = [.Nanosecond, .Second, .Minute, .Hour, .Day, .Month, .Year] ∧
    (fieldMin .Year = 1970 ∧ fieldMin .Month = 1 ∧ fieldMin .Day = 1 ∧
      fieldMin .Hour = 0 ∧ fieldMin .Minute = 0 ∧ fieldMin .Second = 0 ∧
      fieldMin .Nanosecond = 0) ∧
    parsePart "12" "%H" refTest true ltzUTC = .ok ⟨⟨2014, 7, 8, 12, 0, 0, 0⟩, 0⟩ ∧
    parsePart "2015" "%Y" refTest true ltzUTC = .ok ⟨⟨2015, 1, 1, 0, 0, 0, 0⟩, 0⟩ := by
  refine ⟨fun p ref z hr hH => completeLoop_spec p ref z hr hH, rfl,
    ⟨rfl, rfl, rfl, rfl, rfl, rfl, rfl⟩, by decide, by decide⟩

theorem c1_field_completion_witness :
    (refTest.naive.InRange ∧
      Parsed.new.hour_div_12.isNone = Parsed.new.hour_mod_12.isNone) ∧
    completeLoop fieldOrder Parsed.new refTest true =
      .ok (specComplete Parsed.new refTest true) :=
  ⟨⟨by decide, rfl⟩, c1_field_completion.1 Parsed.new refTest true (by decide) rfl⟩

/-- The reference `2014-07-08T09:10:11+01:00`: same wall clock as the test
reference but offset +01:00. -/
def refPlus1 : DateTimeFO := ⟨⟨2014, 7, 8, 9, 10, 11, 0⟩, 3600⟩

/-- C2 counterexample: with a non-UTC reference (offset +01:00) and a system
timezone fixed at UTC, the empty input is NOT returned unchanged — the
reference's wall clock is re-resolved through the system timezone, moving
the absolute instant by an hour and replacing the offset. -/
theorem c2_empty_not_reference :
    parseWithReference "" refPlus1 ltzUTC = .ok ⟨⟨2014, 7, 8, 9, 10, 11, 0⟩, 0⟩ ∧
    instantSecs ⟨⟨2014, 7, 8, 9, 10, 11, 0⟩, 0⟩ ≠ instantSecs refPlus1 ∧
    (⟨⟨2014, 7, 8, 9, 10, 11, 0⟩, 0⟩ : DateTimeFO).offset ≠ refPlus1.offset := by
  refine ⟨by decide, by decide, by decide⟩

/-- C2 (amended): the empty input is handed to
`parse_partial("", "", reference, false)`, which rebuilds the reference's
wall-clock fields; when the reference's offset is zero the result is exactly
the reference instant (tagged +00:00), and for any reference every
successful result carries the reference's wall clock (but a non-UTC
reference is re-resolved through the system timezone, so the absolute
instant can differ, as the counterexample shows). -/
theorem c2_empty_input_amended (ref : DateTimeFO) (ltz : LocalTz)
    (hr : ref.naive.InRange) :
    (ref.offset = 0 → parseWithReference "" ref ltz = .ok ⟨ref.naive, 0⟩) ∧
    (∀ dt, parseWithReference "" ref ltz = .ok dt → dt.naive = ref.naive) := by
  have hpe := parsePart_empty ref ltz hr
  have hw : parseWithReference "" ref ltz =
      (match parsePart "" "" ref false ltz with
       | .ok dt => KResult.ok dt
       | .err _ => KResult.crash
       | .crash => KResult.crash) := by
    simp only [parseWithReference, if_pos rfl, if_true]
  constructor
  · intro h0
    rw [hw, hpe, if_pos h0]
  · intro dt hdt
    rw [hw, hpe] at hdt
    by_cases h0 : ref.offset = 0
    · rw [if_pos h0] at hdt
      cases hdt
      rfl
    · rw [if_neg h0] at hdt
      cases hl : ltz ref.naive <;> simp only [resolveLocal, hl] at hdt
      · cases hdt
      · cases hdt
        rfl
      · cases hdt
        rfl

theorem c2_empty_input_amended_witness :
    refTest.naive.InRange ∧
    parseWithReference "" refTest ltzUTC = .ok ⟨refTest.naive, 0⟩ :=
  ⟨by decide, (c2_empty_input_amended refTest ltzUTC (by decide)).1 rfl⟩

/-- A system timezone with a spring-forward gap: the local wall clock
2025-03-30T02:30:00 has no candidate offset (as in Europe/Paris on that
night); every other wall clock resolves to +01:00. -/
def ltzGap : LocalTz := fun n =>
  if n = ⟨2025, 3, 30, 2, 30, 0, 0⟩ then .missing else .single 3600

/-- A winter reference with offset +01:00. -/
def refWinter : DateTimeFO := ⟨⟨2025, 3, 1, 0, 0, 0, 0⟩, 3600⟩

/-- C7: the non-existent-local-time branch IS reachable — parsing a wall
clock that falls in a spring-forward gap of the system timezone against a
non-UTC reference reaches the `LocalResult::None => unreachable!()` arm of
`parse_partial` and panics, in both `parse_with_reference` and
`parse_timespan_with_reference`. -/
theorem c7_gap_crashes :
    parseWithReference "2025-03-30 02:30" refWinter ltzGap = .crash ∧
    parseTimespanWithReference "2025-03-30 02:30..03:30" refWinter ltzGap = .crash := by
  refine ⟨by decide, by decide⟩

/-- C8: when the reference offset is non-zero and the system timezone maps
the completed wall clock to two candidate offsets (a fall-back fold),
offset resolution succeeds deterministically with the first candidate —
chrono's earliest-instant candidate ("pick earlier" in src/parse.rs line 99);
under chrono's convention that the first candidate denotes the earlier
absolute instant (the larger offset), the chosen instant is the earlier of
the two. -/
theorem c8_ambiguous_picks_earlier :
    (∀ (ltz : LocalTz) (naive : NaiveDT) (o1 o2 : Int),
      ltz naive = .ambiguous o1 o2 →
      resolveLocal ltz naive = .ok ⟨naive, o1⟩ ∧
      (o2 ≤ o1 → instantSecs ⟨naive, o1⟩ ≤ instantSecs ⟨naive, o2⟩)) ∧
    (∀ (s fmt : String) (ref : DateTimeFO) (cwz : Bool) (ltz : LocalTz)
        (p p2 : Parsed) (naive : NaiveDT) (o1 o2 : Int),
      chronoParse fmt s = .ok p → p.timestamp = none →
      completeLoop fieldOrder p ref cwz = .ok p2 → p2.timestamp = none →
      toNaiveDT p2 = .ok naive →
      ref.offset ≠ 0 →
      ltz naive = .ambiguous o1 o2 →
      parsePart s fmt ref cwz ltz = .ok ⟨naive, o1⟩) := by
  constructor
  · intro ltz naive o1 o2 h
    refine ⟨by simp [resolveLocal, h], fun hle => ?_⟩
    simp only [instantSecs]
    omega
  · intro s fmt ref cwz ltz p p2 naive o1 o2 hcp hts hcl hts2 hnd hoff hamb
    simp only [parsePart, hcp, hts, Option.isNone_none, if_true, hcl, hnd, hts2,
      Option.isSome_none, Bool.false_eq_true, if_false]
    rw [if_neg hoff]
    simp [resolveLocal, hamb]

theorem c8_ambiguous_witness :
    parsePart "02:30" "%H:%M" refPlus1 true (fun _ => .ambiguous 7200 3600) =
      .ok ⟨⟨2014, 7, 8, 2, 30, 0, 0⟩, 7200⟩ :=
  c8_ambiguous_picks_earlier.2 "02:30" "%H:%M" refPlus1 true
    (fun _ => .ambiguous 7200 3600)
    ⟨none, none, none, some 0, some 2, some 30, none, none, none⟩
    ⟨some 2014, some 7, some 8, some 0, some 2, some 30, some 0, some 0, none⟩
    ⟨2014, 7, 8, 2, 30, 0, 0⟩ 7200 3600
    (by decide) rfl (by decide) rfl (by decide) (by decide) rfl

/-- The reference `2025-10-27T06:00:00Z` of the timespan examples. -/
def refSpan : DateTimeFO := ⟨⟨2025, 10, 27, 6, 0, 0, 0⟩, 0⟩

/-- C3: a timespan input containing ".." is split at the first occurrence;
the start side resolves against the caller's reference and the stop side
against the just-resolved start, so stop borrows its missing fields from
start.  "10:15..30" against 2025-10-27T06:00:00Z gives start
2025-10-27T10:15:00+00:00 and stop 2025-10-27T10:30:00+00:00. -/
theorem c3_timespan_chaining :
    (∀ (timespan : String) (a b : List Char) (ref : DateTimeFO) (ltz : LocalTz)
        (s t : DateTimeFO),
      splitOnceDotDot timespan.toList = some (a, b) →
      parseTimespanWithReference timespan ref ltz = .ok (s, t) →
      parseWithReference (String.mk a) ref ltz = .ok s ∧
      parseWithReference (String.mk b) s ltz = .ok t) ∧
    splitOnceDotDot "a..b..c".toList = some ("a".toList, "b..c".toList) ∧
    parseTimespanWithReference "10:15..30" refSpan ltzUTC =
      .ok (⟨⟨2025, 10, 27, 10, 15, 0, 0⟩, 0⟩, ⟨⟨2025, 10, 27, 10, 30, 0, 0⟩, 0⟩) := by
  refine ⟨?_, by decide, by decide⟩
  intro timespan a b ref ltz s t hsplit hok
  simp only [parseTimespanWithReference, timespanPair, hsplit] at hok
  cases h1 : parseWithReference (String.mk a) ref ltz with
  | err m => simp only [h1] at hok; exact absurd hok (by simp)
  | crash => simp only [h1] at hok; exact absurd hok (by simp)
  | ok first =>
    simp only [h1] at hok
    cases h2 : parseWithReference (String.mk b) first ltz with
    | err m => simp only [h2] at hok; exact absurd hok (by simp)
    | crash => simp only [h2] at hok; exact absurd hok (by simp)
    | ok second =>
      simp only [h2] at hok
      by_cases hgt : dtGt first second = true
      · rw [if_pos hgt] at hok; exact absurd hok (by simp)
      · rw [if_neg hgt] at hok
        simp only [TSResult.ok.injEq, Prod.mk.injEq] at hok
        obtain ⟨hf, ht⟩ := hok
        subst hf; subst ht
        exact ⟨rfl, h2⟩

theorem c3_timespan_chaining_witness :
    parseWithReference "10:15" refSpan ltzUTC = .ok ⟨⟨2025, 10, 27, 10, 15, 0, 0⟩, 0⟩ ∧
    parseWithReference "30" ⟨⟨2025, 10, 27, 10, 15, 0, 0⟩, 0⟩ ltzUTC =
      .ok ⟨⟨2025, 10, 27, 10, 30, 0, 0⟩, 0⟩ :=
  c3_timespan_chaining.1 "10:15..30" "10:15".toList "30".toList refSpan ltzUTC
    ⟨⟨2025, 10, 27, 10, 15, 0, 0⟩, 0⟩ ⟨⟨2025, 10, 27, 10, 30, 0, 0⟩, 0⟩
    (by decide) (by decide)

/-- C6: `parse_timespan_with_reference` returns a pair only with
start ≤ stop (equality allowed); whenever the resolved pair is reversed it
fails with the `InvalidTimespan` message carrying the input and both
formatted instants, and it never returns a reversed pair. -/
theorem c6_timespan_ordering :
    (∀ (timespan : String) (ref : DateTimeFO) (ltz : LocalTz) (s t : DateTimeFO),
      parseTimespanWithReference timespan ref ltz = .ok (s, t) → dtGt s t = false) ∧
    (∀ (timespan : String) (ref : DateTimeFO) (ltz : LocalTz) (s t : DateTimeFO),
      timespanPair timespan ref ltz = .ok (s, t) → dtGt s t = true →
      parseTimespanWithReference timespan ref ltz =
        .err (invalidTimespanMsg timespan s t)) ∧
    parseTimespanWithReference "10:30..09:00" refSpan ltzUTC =
      .err ("Invalid timespan '10:30..09:00': end time (2025-10-27 09:00:00 +0000)" ++
        " is before start time (2025-10-27 10:30:00 +0000)") := by
  refine ⟨?_, ?_, by decide⟩
  · intro timespan ref ltz s t hok
    unfold parseTimespanWithReference at hok
    cases hp : timespanPair timespan ref ltz with
    | error e => simp only [hp] at hok; cases e <;> simp at hok
    | ok pair =>
      simp only [hp] at hok
      by_cases hgt : dtGt pair.1 pair.2 = true
      · rw [if_pos hgt] at hok; exact absurd hok (by simp)
      · rw [if_neg hgt] at hok
        simp only [TSResult.ok.injEq, Prod.mk.injEq] at hok
        obtain ⟨hf, ht⟩ := hok
        rw [← hf, ← ht]
        simpa using hgt
  · intro timespan ref ltz s t hp hgt
    unfold parseTimespanWithReference
    simp only [hp]
    rw [if_pos hgt]

theorem c6_timespan_ordering_witness :
    dtGt ⟨⟨2025, 10, 27, 10, 15, 0, 0⟩, 0⟩ ⟨⟨2025, 10, 27, 10, 30, 0, 0⟩, 0⟩ = false ∧
    parseTimespanWithReference "10:30..09:00" refSpan ltzUTC =
      .err (invalidTimespanMsg "10:30..09:00" ⟨⟨2025, 10, 27, 10, 30, 0, 0⟩, 0⟩
        ⟨⟨2025, 10, 27, 9, 0, 0, 0⟩, 0⟩) :=
  ⟨c6_timespan_ordering.1 "10:15..30" refSpan ltzUTC
      ⟨⟨2025, 10, 27, 10, 15, 0, 0⟩, 0⟩ ⟨⟨2025, 10, 27, 10, 30, 0, 0⟩, 0⟩ (by decide),
   c6_timespan_ordering.2.1 "10:30..09:00" refSpan ltzUTC
      ⟨⟨2025, 10, 27, 10, 30, 0, 0⟩, 0⟩ ⟨⟨2025, 10, 27, 9, 0, 0, 0⟩, 0⟩
      (by decide) (by decide)⟩

/-- Whether a `parse_partial` outcome is an error (`Err` in the Rust
`Result`). -/
def PResult.isErr : PResult → Bool
  | .err _ => true
  | _ => false

/-- C5 counterexample: on "2015-02-30" the pattern "%Y-%m-%d" matches the
input textually (chrono's strftime parse succeeds, yielding year 2015,
month 2, day 30), the subsequent semantic phase fails (February 30 is not a
date), and yet the dispatch loop goes on: its attempt trace is the whole
catalog, not just the first pattern. -/
theorem c5_semantic_failure_not_fatal :
    chronoParse "%Y-%m-%d" "2015-02-30" =
      .ok { year := some 2015, month := some 2, day := some 30 } ∧
    parsePart "2015-02-30" "%Y-%m-%d" refTest true ltzUTC = .err .outOfRange ∧
    tryFormatsTrace TIMEPARSER_FORMATS "2015-02-30" refTest ltzUTC = TIMEPARSER_FORMATS ∧
    TIMEPARSER_FORMATS.length = 17 := by
  refine ⟨by decide, by decide, by decide, by decide⟩

/-- C5 (amended): a failure of `parse_partial` arising after a successful
textual match — inside field completion or naive-datetime construction — is
treated exactly like a textual mismatch: the dispatch loop moves on to the
next catalog pattern.  On "2015-02-30" every later pattern also fails, so
the call ends with the format-mismatch error. -/
theorem c5_error_tries_next (ts f : String) (rest : List String)
    (ref : DateTimeFO) (ltz : LocalTz) (e : PErr)
    (he : parsePart ts f ref true ltz = .err e) :
    tryFormats (f :: rest) ts ref ltz = tryFormats rest ts ref ltz ∧
    parseWithReference "2015-02-30" refTest ltzUTC =
      .err "Could not parse time string: \"2015-02-30\"" := by
  refine ⟨?_, by decide⟩
  simp only [tryFormats, he]

theorem c5_error_tries_next_witness :
    tryFormats TIMEPARSER_FORMATS "2015-02-30" refTest ltzUTC =
      tryFormats ["%Y-%m-%d %H:%M", "%Y-%m-%d %H:%M:%S", "%m-%d", "%m/%d",
        "%m-%d %H:%M:%S", "%m-%d %H:%M", "%d %H:%M", "%d %Hh%M", "%d %Hh",
        "%H:%M:%S", "%H:%M", "%Hh%M", "%Hh", "%Mm", "%M", "@%s"]
        "2015-02-30" refTest ltzUTC :=
  (c5_error_tries_next "2015-02-30" "%Y-%m-%d"
    ["%Y-%m-%d %H:%M", "%Y-%m-%d %H:%M:%S", "%m-%d", "%m/%d",
     "%m-%d %H:%M:%S", "%m-%d %H:%M", "%d %H:%M", "%d %Hh%M", "%d %Hh",
     "%H:%M:%S", "%H:%M", "%Hh%M", "%Hh", "%Mm", "%M", "@%s"]
    refTest ltzUTC .outOfRange (by decide)).1

/-- C4: for non-empty input the dispatch loop tries the 17 catalog patterns
in declared order with `complete_with_zeroes = true`; a pattern only matches
when the whole input is consumed (a leftover makes chrono return `TOO_LONG`,
as "%Y-%m-%d" on "2014-07-08 09:10" shows — the input then falls to the
later pattern "%Y-%m-%d %H:%M"); the first pattern whose `parse_partial`
returns Ok wins, and if every pattern fails the call returns the
format-mismatch error naming the input. -/
theorem c4_catalog_dispatch :
    TIMEPARSER_FORMATS =
      ["%Y-%m-%d", "%Y-%m-%d %H:%M", "%Y-%m-%d %H:%M:%S", "%m-%d", "%m/%d",
       "%m-%d %H:%M:%S", "%m-%d %H:%M", "%d %H:%M", "%d %Hh%M", "%d %Hh",
       "%H:%M:%S", "%H:%M", "%Hh%M", "%Hh", "%Mm", "%M", "@%s"] ∧
    (∀ (ts : String) (ref : DateTimeFO) (ltz : LocalTz),
      ts ≠ "" → parseWithReference ts ref ltz = tryFormats TIMEPARSER_FORMATS ts ref ltz) ∧
    (∀ (l1 l2 : List String) (f ts : String) (ref : DateTimeFO) (ltz : LocalTz)
        (dt : DateTimeFO),
      (∀ g ∈ l1, (parsePart ts g ref true ltz).isErr = true) →
      parsePart ts f ref true ltz = .ok dt →
      tryFormats (l1 ++ f :: l2) ts ref ltz = .ok dt) ∧
    (∀ (l : List String) (ts : String) (ref : DateTimeFO) (ltz : LocalTz),
      (∀ g ∈ l, (parsePart ts g ref true ltz).isErr = true) →
      tryFormats l ts ref ltz =
        .err ("Could not parse time string: " ++ debugQuote ts)) ∧
    chronoParse "%Y-%m-%d" "2014-07-08 09:10" = .error .tooLong ∧
    parseWithReference "2014-07-08 09:10" refTest ltzUTC =
      .ok ⟨⟨2014, 7, 8, 9, 10, 0, 0⟩, 0⟩ := by
  refine ⟨rfl, ?_, ?_, ?_, by decide, by decide⟩
  · intro ts ref ltz hne
    simp only [parseWithReference, if_neg hne]
  · intro l1 l2 f ts ref ltz dt hfail hok
    induction l1 with
    | nil => simp only [List.nil_append, tryFormats, hok]
    | cons g gs ih =>
      have hg : (parsePart ts g ref true ltz).isErr = true :=
        hfail g (List.mem_cons_self g gs)
      cases hpg : parsePart ts g ref true ltz with
      | ok _ => rw [hpg] at hg; simp [PResult.isErr] at hg
      | crash => rw [hpg] at hg; simp [PResult.isErr] at hg
      | err e =>
        simp only [List.cons_append, tryFormats, hpg]
        exact ih (fun g' hg' => hfail g' (List.mem_cons_of_mem g hg'))
  · intro l ts ref ltz hfail
    induction l with
    | nil => rfl
    | cons g gs ih =>
      have hg : (parsePart ts g ref true ltz).isErr = true :=
        hfail g (List.mem_cons_self g gs)
      cases hpg : parsePart ts g ref true ltz with
      | ok _ => rw [hpg] at hg; simp [PResult.isErr] at hg
      | crash => rw [hpg] at hg; simp [PResult.isErr] at hg
      | err e =>
        simp only [tryFormats, hpg]
        exact ih (fun g' hg' => hfail g' (List.mem_cons_of_mem g hg'))

theorem c4_catalog_dispatch_witness :
    parseWithReference "2014-07-08" refTest ltzUTC =
      tryFormats TIMEPARSER_FORMATS "2014-07-08" refTest ltzUTC ∧
    tryFormats (["%Y-%m-%d"] ++ "%Y-%m-%d %H:%M" :: []) "2015-01-02 03:04" refTest ltzUTC =
      .ok ⟨⟨2015, 1, 2, 3, 4, 0, 0⟩, 0⟩ ∧
    tryFormats ["%Hh"] "zzz" refTest ltzUTC =
      .err ("Could not parse time string: " ++ debugQuote "zzz") :=
  ⟨c4_catalog_dispatch.2.1 "2014-07-08" refTest ltzUTC (by decide),
   c4_catalog_dispatch.2.2.1 ["%Y-%m-%d"] [] "%Y-%m-%d %H:%M" "2015-01-02 03:04"
     refTest ltzUTC ⟨⟨2015, 1, 2, 3, 4, 0, 0⟩, 0⟩ (by decide) (by decide),
   c4_catalog_dispatch.2.2.2.1 ["%Hh"] "zzz" refTest ltzUTC (by decide)⟩

/-- The ASCII digit character of `m % 10`. -/
def dchar (m : Nat) : Char := Char.ofNat (48 + m % 10)

/-- Decimal digit string of a natural number (most significant first);
structural recursion on a fuel bound so that it reduces in the kernel. -/
def natDigitsAux : Nat → Nat → List Char
  | 0, _ => []
  | fuel + 1, n =>
    if n < 10 then [dchar n]
    else natDigitsAux fuel (n / 10) ++ [dchar (n % 10)]

def natDigits (n : Nat) : List Char := natDigitsAux (n + 1) n

theorem dchar_toNat (m : Nat) : (dchar m).toNat = 48 + m % 10 := by
  have h : m % 10 < 10 := Nat.mod_lt _ (by omega)
  unfold dchar
  revert h
  generalize m % 10 = k
  intro h
  interval_cases k <;> decide

theorem dchar_isDigit (m : Nat) : (dchar m).isDigit = true := by
  have h : m % 10 < 10 := Nat.mod_lt _ (by omega)
  unfold dchar
  revert h
  generalize m % 10 = k
  intro h
  interval_cases k <;> decide

theorem isDigit_not_ws (c : Char) (hd : c.isDigit = true) : c.isWhitespace = false := by
  cases hw : c.isWhitespace
  · rfl
  · exfalso
    simp [Char.isWhitespace] at hw
    rcases hw with ((rfl | rfl) | rfl) | rfl <;> exact absurd hd (by decide)

theorem dchar_ne_dash (m : Nat) : ¬(dchar m = '-') := by
  intro h
  have h2 := congrArg Char.toNat h
  rw [dchar_toNat] at h2
  have h45 : Char.toNat '-' = 45 := rfl
  rw [h45] at h2
  omega

theorem dchar_ne_plus (m : Nat) : ¬(dchar m = '+') := by
  intro h
  have h2 := congrArg Char.toNat h
  rw [dchar_toNat] at h2
  have h43 : Char.toNat '+' = 43 := rfl
  rw [h43] at h2
  omega

theorem natDigitsAux_fuel (fuel n : Nat) (h : n < fuel) :
    natDigitsAux fuel n = natDigitsAux (n + 1) n := by
  induction fuel using Nat.strong_induction_on generalizing n with
  | _ fuel ih =>
    match fuel, h with
    | f + 1, h =>
      match n, h with
      | n, h =>
        simp only [natDigitsAux]
        by_cases h10 : n < 10
        · simp [h10]
        · rw [if_neg h10, if_neg h10]
          have hlt : n / 10 < n := Nat.div_lt_self (by omega) (by omega)
          rw [ih f (by omega) (n / 10) (by omega),
            ← ih n (by omega) (n / 10) (by omega)]

theorem natDigits_cons (n : Nat) :
    natDigits n = if n < 10 then [dchar n]
      else natDigits (n / 10) ++ [dchar (n % 10)] := by
  unfold natDigits
  rw [show natDigitsAux (n + 1) n = if n < 10 then [dchar n]
      else natDigitsAux n (n / 10) ++ [dchar (n % 10)] from rfl]
  by_cases h10 : n < 10
  · simp [h10]
  · rw [if_neg h10, if_neg h10,
      natDigitsAux_fuel n (n / 10) (by exact Nat.div_lt_self (by omega) (by omega))]

theorem natDigits_ne_nil (n : Nat) : natDigits n ≠ [] := by
  rw [natDigits_cons]
  split
  · simp
  · simp

theorem natDigits_all_digits (n : Nat) : ∀ c ∈ natDigits n, c.isDigit = true := by
  induction n using Nat.strong_induction_on with
  | _ n ih =>
    rw [natDigits_cons]
    split
    · intro c hc
      simp only [List.mem_singleton] at hc
      subst hc
      exact dchar_isDigit n
    · intro c hc
      rw [List.mem_append] at hc
      rcases hc with h | h
      · exact ih (n / 10) (Nat.div_lt_self (by omega) (by omega)) c h
      · simp only [List.mem_singleton] at h
        subst h
        exact dchar_isDigit _

theorem natOfDigits_append_one (l : List Char) (c : Char) :
    natOfDigits (l ++ [c]) = natOfDigits l * 10 + (c.toNat - 48) := by
  simp [natOfDigits, List.foldl_append]

theorem natOfDigits_natDigits (n : Nat) : natOfDigits (natDigits n) = n := by
  induction n using Nat.strong_induction_on with
  | _ n ih =>
    rw [natDigits_cons]
    split
    · simp only [natOfDigits, List.foldl_cons, List.foldl_nil, dchar_toNat]
      omega
    · rw [natOfDigits_append_one, ih (n / 10) (Nat.div_lt_self (by omega) (by omega)),
        dchar_toNat]
      omega

theorem takeWhile_of_all {α} (q : α → Bool) (l : List α)
    (h : ∀ c ∈ l, q c = true) : l.takeWhile q = l := by
  induction l with
  | nil => rfl
  | cons c cs ih =>
    rw [List.takeWhile_cons, if_pos (h c (List.mem_cons_self c cs)),
      ih (fun c' hc' => h c' (List.mem_cons_of_mem c hc'))]

theorem dropWhile_ws_of_digits (l : List Char) (h : ∀ c ∈ l, c.isDigit = true) :
    l.dropWhile (·.isWhitespace) = l := by
  cases l with
  | nil => rfl
  | cons c cs =>
    rw [List.dropWhile_cons, if_neg]
    rw [isDigit_not_ws c (h c (List.mem_cons_self c cs))]
    simp

theorem scanNumber_all_digits (l : List Char) (hne : l ≠ [])
    (hd : ∀ c ∈ l, c.isDigit = true) (hbound : natOfDigits l ≤ i64Max) :
    scanNumber none l = .ok (natOfDigits l, []) := by
  simp only [scanNumber, Option.getD, List.take_length, takeWhile_of_all _ _ hd]
  rw [if_neg (by simp [hne]), if_neg (by omega), List.drop_length]

theorem scanNumber_nondigit (w : Option Nat) (c : Char) (l : List Char)
    (hc : c.isDigit = false) : scanNumber w (c :: l) = .error .invalid := by
  rcases w with _ | k
  · simp [scanNumber, List.take_succ_cons, List.takeWhile_cons, hc]
  · cases k with
    | zero => simp [scanNumber]
    | succ k => simp [scanNumber, List.take_succ_cons, List.takeWhile_cons, hc]

theorem parseNum_nondigit (spec : NumSpec) (p : Parsed) (c : Char) (l : List Char)
    (hd : c.isDigit = false) (hws : c.isWhitespace = false)
    (hdash : ¬(c = '-')) (hplus : ¬(c = '+')) :
    parseNum spec p (c :: l) = .error .invalid := by
  cases spec <;>
    simp [parseNum, List.dropWhile_cons, hws, scanSigned, hdash, hplus, numWidth,
      scanNumber_nondigit _ _ _ hd, Except.map]

/-- Any catalog format whose compiled item list starts with a numeric
specifier rejects an input starting with '@'. -/
theorem chronoParse_at_num (fmt : String) (spec : NumSpec) (restIt : List FItem)
    (hit : strfItems fmt.toList = .num spec :: restIt) (l : List Char) :
    chronoParse fmt (String.mk ('@' :: l)) = .error .invalid := by
  have h := parseNum_nondigit spec Parsed.new '@' l (by decide) (by decide)
    (by decide) (by decide)
  have hs : (String.mk ('@' :: l)).toList = '@' :: l := rfl
  have hit2 : strfItems fmt.data = .num spec :: restIt := hit
  simp [chronoParse, hs, hit, hit2, parseItems, parseItem, h]

theorem parsePart_at_num (fmt : String) (spec : NumSpec) (restIt : List FItem)
    (hit : strfItems fmt.toList = .num spec :: restIt) (l : List Char)
    (ref : DateTimeFO) (cwz : Bool) (ltz : LocalTz) :
    parsePart (String.mk ('@' :: l)) fmt ref cwz ltz = .err .invalid := by
  simp [parsePart, chronoParse_at_num fmt spec restIt hit l]

theorem chronoMinTs_nonpos : chronoMinTs ≤ 0 := by decide

/-- Reconstructing the naive datetime from a bare parsed timestamp. -/
theorem toNaiveDT_timestamp (t : Int) (hmin : chronoMinTs ≤ t) (hmax : t ≤ chronoMaxTs) :
    toNaiveDT { timestamp := some t } = .ok (naiveOfSecs t 0) := by
  simp only [toNaiveDT, toNaiveDate, toNaiveTime, naiveOfTimestamp]
  rw [if_neg (by simp), if_neg (by simp), if_pos ⟨hmin, hmax⟩]
  simp [consistentWith]

/-- "@%s": the '@' literal is consumed, the timestamp absorbs every digit,
completion is skipped, and the instant is the timestamp at offset zero,
independent of the reference and of the system timezone. -/
theorem parsePart_epoch (n : Nat) (ref : DateTimeFO) (cwz : Bool) (ltz : LocalTz)
    (hle : n ≤ i64Max) (hmax : (n : Int) ≤ chronoMaxTs) :
    parsePart (String.mk ('@' :: natDigits n)) "@%s" ref cwz ltz =
      .ok ⟨naiveOfSecs (n : Int) 0, 0⟩ := by
  have hsc := scanNumber_all_digits (natDigits n) (natDigits_ne_nil n)
    (natDigits_all_digits n) (by rw [natOfDigits_natDigits]; exact hle)
  have hdw := dropWhile_ws_of_digits (natDigits n) (natDigits_all_digits n)
  have hitems : strfItems "@%s".toList = [.lit '@', .num .Timestamp] := rfl
  have hs : (String.mk ('@' :: natDigits n)).toList = '@' :: natDigits n := rfl
  have hparse : chronoParse "@%s" (String.mk ('@' :: natDigits n)) =
      .ok { timestamp := some (n : Int) } := by
    simp [chronoParse, hs, hitems, parseItems, parseItem, parseNum, hdw, hsc,
      natOfDigits_natDigits, setTimestamp, setIfConsistent, Parsed.new, numWidth,
      numSet, Except.map]
  have hmin : chronoMinTs ≤ (n : Int) := by
    have h0 := chronoMinTs_nonpos
    omega
  have htn := toNaiveDT_timestamp (n : Int) hmin hmax
  simp [parsePart, hparse, htn]

/-- C10: an input matching the absolute-epoch pattern "@%s" parses to the
instant that many seconds after the Unix epoch, tagged with offset zero,
bypassing field completion, for every reference and system timezone; the 16
calendar/clock patterns all reject a '@'-headed input, so "@%s" is the one
that fires.  In particular "@1704150000" gives 2024-01-01T23:00:00+00:00
regardless of the reference. -/
theorem c10_epoch_absolute (n : Nat) (ref : DateTimeFO) (ltz : LocalTz)
    (hle : n ≤ i64Max) (hmax : (n : Int) ≤ chronoMaxTs) :
    parseWithReference (String.mk ('@' :: natDigits n)) ref ltz =
      .ok ⟨naiveOfSecs (n : Int) 0, 0⟩ ∧
    parseWithReference "@1704150000" ref ltz = .ok ⟨⟨2024, 1, 1, 23, 0, 0, 0⟩, 0⟩ := by
  have main : ∀ (m : Nat), m ≤ i64Max → (m : Int) ≤ chronoMaxTs →
      parseWithReference (String.mk ('@' :: natDigits m)) ref ltz =
        .ok ⟨naiveOfSecs (m : Int) 0, 0⟩ := by
    intro m hlem hmaxm
    have hne : String.mk ('@' :: natDigits m) ≠ "" := by
      intro h
      have h2 : '@' :: natDigits m = ([] : List Char) := congrArg String.data h
      cases h2
    have hf01 := parsePart_at_num "%Y-%m-%d" .Year _ rfl (natDigits m) ref true ltz
    have hf02 := parsePart_at_num "%Y-%m-%d %H:%M" .Year _ rfl (natDigits m) ref true ltz
    have hf03 := parsePart_at_num "%Y-%m-%d %H:%M:%S" .Year _ rfl (natDigits m) ref true ltz
    have hf04 := parsePart_at_num "%m-%d" .Month _ rfl (natDigits m) ref true ltz
    have hf05 := parsePart_at_num "%m/%d" .Month _ rfl (natDigits m) ref true ltz
    have hf06 := parsePart_at_num "%m-%d %H:%M:%S" .Month _ rfl (natDigits m) ref true ltz
    have hf07 := parsePart_at_num "%m-%d %H:%M" .Month _ rfl (natDigits m) ref true ltz
    have hf08 := parsePart_at_num "%d %H:%M" .Day _ rfl (natDigits m) ref true ltz
    have hf09 := parsePart_at_num "%d %Hh%M" .Day _ rfl (natDigits m) ref true ltz
    have hf10 := parsePart_at_num "%d %Hh" .Day _ rfl (natDigits m) ref true ltz
    have hf11 := parsePart_at_num "%H:%M:%S" .Hour _ rfl (natDigits m) ref true ltz
    have hf12 := parsePart_at_num "%H:%M" .Hour _ rfl (natDigits m) ref true ltz
    have hf13 := parsePart_at_num "%Hh%M" .Hour _ rfl (natDigits m) ref true ltz
    have hf14 := parsePart_at_num "%Hh" .Hour _ rfl (natDigits m) ref true ltz
    have hf15 := parsePart_at_num "%Mm" .Minute _ rfl (natDigits m) ref true ltz
    have hf16 := parsePart_at_num "%M" .Minute _ rfl (natDigits m) ref true ltz
    have hok := parsePart_epoch m ref true ltz hlem hmaxm
    simp only [parseWithReference, if_neg hne, TIMEPARSER_FORMATS, tryFormats,
      hf01, hf02, hf03, hf04, hf05, hf06, hf07, hf08, hf09, hf10, hf11, hf12,
      hf13, hf14, hf15, hf16, hok]
  refine ⟨main n hle hmax, ?_⟩
  have h17 : "@1704150000" = String.mk ('@' :: natDigits 1704150000) := by decide
  have hnum : naiveOfSecs ((1704150000 : Nat) : Int) 0 = ⟨2024, 1, 1, 23, 0, 0, 0⟩ := by
    decide
  rw [h17, main 1704150000 (by decide) (by decide), hnum]

theorem c10_epoch_absolute_witness :
    parseWithReference (String.mk ('@' :: natDigits 1704150000)) refPlus1 ltzUTC =
      .ok ⟨naiveOfSecs ((1704150000 : Nat) : Int) 0, 0⟩ ∧
    parseWithReference "@1704150000" refPlus1 ltzUTC =
      .ok ⟨⟨2024, 1, 1, 23, 0, 0, 0⟩, 0⟩ :=
  c10_epoch_absolute 1704150000 refPlus1 ltzUTC (by decide) (by decide)

/-- Two-digit zero-padded decimal rendering (e.g. month "02"). -/
def render2 (n : Nat) : List Char := [dchar (n / 10), dchar n]

/-- Four-digit zero-padded decimal rendering (e.g. year "2015"). -/
def render4 (n : Nat) : List Char :=
  [dchar (n / 1000), dchar (n / 100), dchar (n / 10), dchar n]

/-- A complete calendar string "YYYY-MM-DD HH:MM:SS". -/
def renderDT (y mo d h mi s : Nat) : String :=
  String.mk (render4 y ++ '-' :: render2 mo ++ '-' :: render2 d ++
    ' ' :: render2 h ++ ':' :: render2 mi ++ ':' :: render2 s)

theorem take_two {α} (a b : α) (l : List α) : List.take 2 (a :: b :: l) = [a, b] := rfl

theorem drop_two {α} (a b : α) (l : List α) : List.drop 2 (a :: b :: l) = l := rfl

theorem take_four {α} (a b c d : α) (l : List α) :
    List.take 4 (a :: b :: c :: d :: l) = [a, b, c, d] := rfl

theorem drop_four {α} (a b c d : α) (l : List α) :
    List.drop 4 (a :: b :: c :: d :: l) = l := rfl

theorem scan2 (n : Nat) (hn : n < 100) (rest : List Char) :
    scanNumber (some 2) (render2 n ++ rest) = .ok (n, rest) := by
  have hval : natOfDigits [dchar (n / 10), dchar n] = n := by
    simp only [natOfDigits, List.foldl_cons, List.foldl_nil, dchar_toNat]
    omega
  simp only [scanNumber, render2, List.cons_append, List.nil_append, Option.getD,
    take_two, drop_two, List.takeWhile_cons, dchar_isDigit, if_true,
    List.takeWhile_nil, hval]
  rw [if_neg (by simp), if_neg (by simp only [i64Max]; omega)]
  simp [take_two, drop_two]

theorem scan4 (n : Nat) (hn : n < 10000) (rest : List Char) :
    scanNumber (some 4) (render4 n ++ rest) = .ok (n, rest) := by
  have hval : natOfDigits [dchar (n / 1000), dchar (n / 100), dchar (n / 10), dchar n] = n := by
    simp only [natOfDigits, List.foldl_cons, List.foldl_nil, dchar_toNat]
    omega
  simp only [scanNumber, render4, List.cons_append, List.nil_append, Option.getD,
    take_four, drop_four, List.takeWhile_cons, dchar_isDigit, if_true,
    List.takeWhile_nil, hval]
  rw [if_neg (by simp), if_neg (by simp only [i64Max]; omega)]
  simp [take_four, drop_four]

theorem scanSigned4 (n : Nat) (hn : n < 10000) (rest : List Char) :
    scanSigned (some 4) (render4 n ++ rest) = .ok ((n : Int), rest) := by
  simp only [render4, List.cons_append, scanSigned]
  rw [if_neg (dchar_ne_dash _), if_neg (dchar_ne_plus _)]
  have h := scan4 n hn rest
  simp only [render4, List.cons_append, List.nil_append] at h
  simp [h, Except.map]

theorem dropWhile_render2 (n : Nat) (rest : List Char) :
    (render2 n ++ rest).dropWhile (·.isWhitespace) = render2 n ++ rest := by
  simp [render2, List.dropWhile_cons, isDigit_not_ws _ (dchar_isDigit _)]

theorem dropWhile_render4 (n : Nat) (rest : List Char) :
    (render4 n ++ rest).dropWhile (·.isWhitespace) = render4 n ++ rest := by
  simp [render4, List.dropWhile_cons, isDigit_not_ws _ (dchar_isDigit _)]

theorem parseNum_year (p : Parsed) (y : Nat) (hy : y < 10000) (hpy : p.year = none)
    (rest : List Char) :
    parseItem (.num .Year) p (render4 y ++ rest) = .ok ({ p with year := some (y : Int) }, rest) := by
  simp only [parseItem, parseNum, dropWhile_render4, scanSigned4 y hy rest, numSet]
  rw [setYear, if_neg (by omega)]
  simp [setIfConsistent, hpy]

theorem parseNum_month (p : Parsed) (m : Nat) (hm1 : 1 ≤ m) (hm2 : m ≤ 12)
    (hpm : p.month = none) (rest : List Char) :
    parseItem (.num .Month) p (render2 m ++ rest) =
      .ok ({ p with month := some (m : Int) }, rest) := by
  simp only [parseItem, parseNum, dropWhile_render2, numWidth, scan2 m (by omega) rest, numSet,
    Except.map]
  rw [setMonth, if_neg (by omega)]
  simp [setIfConsistent, hpm]

theorem parseNum_day (p : Parsed) (d : Nat) (hd1 : 1 ≤ d) (hd2 : d ≤ 31)
    (hpd : p.day = none) (rest : List Char) :
    parseItem (.num .Day) p (render2 d ++ rest) = .ok ({ p with day := some (d : Int) }, rest) := by
  simp only [parseItem, parseNum, dropWhile_render2, numWidth, scan2 d (by omega) rest, numSet,
    Except.map]
  rw [setDay, if_neg (by omega)]
  simp [setIfConsistent, hpd]

theorem parseNum_hour (p : Parsed) (h : Nat) (hh : h ≤ 23)
    (hp1 : p.hour_div_12 = none) (hp2 : p.hour_mod_12 = none) (rest : List Char) :
    parseItem (.num .Hour) p (render2 h ++ rest) =
      .ok ({ p with
              hour_div_12 := some ((h : Int) / 12)
              hour_mod_12 := some ((h : Int) % 12) }, rest) := by
  simp only [parseItem, parseNum, dropWhile_render2, numWidth, scan2 h (by omega) rest, numSet,
    Except.map]
  rw [setHour, if_neg (by omega)]
  simp [setIfConsistent, hp1, hp2]

theorem parseNum_minute (p : Parsed) (m : Nat) (hm : m ≤ 59)
    (hpm : p.minute = none) (rest : List Char) :
    parseItem (.num .Minute) p (render2 m ++ rest) =
      .ok ({ p with minute := some (m : Int) }, rest) := by
  simp only [parseItem, parseNum, dropWhile_render2, numWidth, scan2 m (by omega) rest, numSet,
    Except.map]
  rw [setMinute, if_neg (by omega)]
  simp [setIfConsistent, hpm]

theorem parseNum_second (p : Parsed) (s : Nat) (hs : s ≤ 59)
    (hps : p.second = none) (rest : List Char) :
    parseItem (.num .Second) p (render2 s ++ rest) =
      .ok ({ p with second := some (s : Int) }, rest) := by
  simp only [parseItem, parseNum, dropWhile_render2, numWidth, scan2 s (by omega) rest, numSet,
    Except.map]
  rw [setSecond, if_neg (by omega)]
  simp [setIfConsistent, hps]

theorem parseItems_step (it : FItem) (its : List FItem) (p p2 : Parsed)
    (s s2 : List Char) (h : parseItem it p s = .ok (p2, s2)) :
    parseItems (it :: its) p s = parseItems its p2 s2 := by
  simp only [parseItems, h]

theorem parseItem_lit (c : Char) (p : Parsed) (rest : List Char) :
    parseItem (.lit c) p (c :: rest) = .ok (p, rest) := by
  simp [parseItem]

theorem parseItem_space_digits (p : Parsed) (n : Nat) (rest : List Char) :
    parseItem .space p (' ' :: (render2 n ++ rest)) = .ok (p, render2 n ++ rest) := by
  simp [parseItem, List.dropWhile_cons, dropWhile_render2]

theorem parseItems_append (a b : List FItem) (p : Parsed) (s : List Char) :
    parseItems (a ++ b) p s =
      match parseItems a p s with
      | .error e => .error e
      | .ok (p2, s2) => parseItems b p2 s2 := by
  induction a generalizing p s with
  | nil => simp [parseItems]
  | cons it its ih =>
    simp only [List.cons_append, parseItems]
    cases parseItem it p s with
    | error e => rfl
    | ok q => exact ih q.1 q.2

/-- C9 chain, part 1: the "%Y-%m-%d" item block consumes the date part. -/
theorem parseChainYmd (y mo d h mi s : Nat) (hy : y ≤ 9999)
    (hm1 : 1 ≤ mo) (hm2 : mo ≤ 12) (hd1 : 1 ≤ d) (hd2 : d ≤ 31) :
    parseItems [.num .Year, .lit '-', .num .Month, .lit '-', .num .Day] Parsed.new
      (render4 y ++ '-' :: render2 mo ++ '-' :: render2 d ++
        ' ' :: render2 h ++ ':' :: render2 mi ++ ':' :: render2 s) =
    .ok (⟨some (y : Int), some (mo : Int), some (d : Int),
          none, none, none, none, none, none⟩,
      ' ' :: render2 h ++ ':' :: render2 mi ++ ':' :: render2 s) :=
  (parseItems_step _ _ _ _ _ _ (parseNum_year Parsed.new y (by omega) rfl _)).trans
    ((parseItems_step _ _ _ _ _ _ (parseItem_lit '-' _ _)).trans
    ((parseItems_step _ _ _ _ _ _ (parseNum_month _ mo hm1 hm2 rfl _)).trans
    ((parseItems_step _ _ _ _ _ _ (parseItem_lit '-' _ _)).trans
    ((parseItems_step _ _ _ _ _ _ (parseNum_day _ d hd1 hd2 rfl _)).trans
    rfl))))

/-- C9 chain, part 2: the " %H:%M" item block consumes hour and minute. -/
theorem parseChainHm (y mo d h mi s : Nat) (hh : h ≤ 23) (hmi : mi ≤ 59) :
    parseItems [.space, .num .Hour, .lit ':', .num .Minute]
      (⟨some (y : Int), some (mo : Int), some (d : Int),
        none, none, none, none, none, none⟩ : Parsed)
      (' ' :: render2 h ++ ':' :: render2 mi ++ ':' :: render2 s) =
    .ok (⟨some (y : Int), some (mo : Int), some (d : Int),
          some ((h : Int) / 12), some ((h : Int) % 12), some (mi : Int),
          none, none, none⟩,
      ':' :: render2 s) :=
  (parseItems_step _ _ _ _ _ _ (parseItem_space_digits _ h _)).trans
    ((parseItems_step _ _ _ _ _ _ (parseNum_hour _ h hh rfl rfl _)).trans
    ((parseItems_step _ _ _ _ _ _ (parseItem_lit ':' _ _)).trans
    ((parseItems_step _ _ _ _ _ _ (parseNum_minute _ mi hmi rfl _)).trans
    rfl)))

/-- C9 chain, part 3: the ":%S" item block consumes the second, ending the
input. -/
theorem parseChainS (y mo d h mi s : Nat) (hs : s ≤ 59) :
    parseItems [.lit ':', .num .Second]
      (⟨some (y : Int), some (mo : Int), some (d : Int),
        some ((h : Int) / 12), some ((h : Int) % 12), some (mi : Int),
        none, none, none⟩ : Parsed)
      (':' :: render2 s ++ []) =
    .ok (⟨some (y : Int), some (mo : Int), some (d : Int),
          some ((h : Int) / 12), some ((h : Int) % 12), some (mi : Int),
          some (s : Int), none, none⟩, []) :=
  (parseItems_step _ _ _ _ _ _ (parseItem_lit ':' _ _)).trans
    ((parseItems_step _ _ _ _ _ _ (parseNum_second _ s hs rfl _)).trans
    rfl)

/-- The rendered calendar string, as a character list. -/
theorem renderDT_toList (y mo d h mi s : Nat) :
    (renderDT y mo d h mi s).toList =
      render4 y ++ '-' :: render2 mo ++ '-' :: render2 d ++
        ' ' :: render2 h ++ ':' :: render2 mi ++ ':' :: render2 s := rfl

theorem chronoParse_fmt1 (y mo d h mi s : Nat) (hy : y ≤ 9999)
    (hm1 : 1 ≤ mo) (hm2 : mo ≤ 12) (hd1 : 1 ≤ d) (hd2 : d ≤ 31) :
    chronoParse "%Y-%m-%d" (renderDT y mo d h mi s) = .error .tooLong := by
  have h1 := parseChainYmd y mo d h mi s hy hm1 hm2 hd1 hd2
  have hit : strfItems "%Y-%m-%d".toList =
      [.num .Year, .lit '-', .num .Month, .lit '-', .num .Day] := rfl
  simp only [chronoParse, renderDT_toList, hit, h1]
  rfl

theorem chronoParse_fmt2 (y mo d h mi s : Nat) (hy : y ≤ 9999)
    (hm1 : 1 ≤ mo) (hm2 : mo ≤ 12) (hd1 : 1 ≤ d) (hd2 : d ≤ 31)
    (hh : h ≤ 23) (hmi : mi ≤ 59) :
    chronoParse "%Y-%m-%d %H:%M" (renderDT y mo d h mi s) = .error .tooLong := by
  have h1 := parseChainYmd y mo d h mi s hy hm1 hm2 hd1 hd2
  have h2 := parseChainHm y mo d h mi s hh hmi
  have hit : strfItems "%Y-%m-%d %H:%M".toList =
      [.num .Year, .lit '-', .num .Month, .lit '-', .num .Day] ++
        [.space, .num .Hour, .lit ':', .num .Minute] := rfl
  simp only [chronoParse, renderDT_toList, hit, parseItems_append, h1, h2]
  rfl

theorem chronoParse_fmt3 (y mo d h mi s : Nat) (hy : y ≤ 9999)
    (hm1 : 1 ≤ mo) (hm2 : mo ≤ 12) (hd1 : 1 ≤ d) (hd2 : d ≤ 31)
    (hh : h ≤ 23) (hmi : mi ≤ 59) (hs : s ≤ 59) :
    chronoParse "%Y-%m-%d %H:%M:%S" (renderDT y mo d h mi s) =
      .ok ⟨some (y : Int), some (mo : Int), some (d : Int),
        some ((h : Int) / 12), some ((h : Int) % 12), some (mi : Int),
        some (s : Int), none, none⟩ := by
  have h1 := parseChainYmd y mo d h mi s hy hm1 hm2 hd1 hd2
  have h2 := parseChainHm y mo d h mi s hh hmi
  have h3 : parseItems [.lit ':', .num .Second]
      (⟨some (y : Int), some (mo : Int), some (d : Int),
        some ((h : Int) / 12), some ((h : Int) % 12), some (mi : Int),
        none, none, none⟩ : Parsed)
      (':' :: render2 s) =
    .ok (⟨some (y : Int), some (mo : Int), some (d : Int),
          some ((h : Int) / 12), some ((h : Int) % 12), some (mi : Int),
          some (s : Int), none, none⟩, []) := parseChainS y mo d h mi s hs
  have hit : strfItems "%Y-%m-%d %H:%M:%S".toList =
      [.num .Year, .lit '-', .num .Month, .lit '-', .num .Day] ++
        ([.space, .num .Hour, .lit ':', .num .Minute] ++
          [.lit ':', .num .Second]) := rfl
  simp only [chronoParse, renderDT_toList, hit, parseItems_append, h1, h2, h3]
  rfl

/-- `parse_partial` on the full rendered calendar string against the third
catalog pattern: nanosecond is completed with 0, every parsed field is kept,
and a zero-offset reference yields the parsed wall clock at offset 0. -/
theorem parsePart_fmt3 (y mo d h mi s : Nat) (ref : DateTimeFO) (ltz : LocalTz)
    (hy : y ≤ 9999) (hm1 : 1 ≤ mo) (hm2 : mo ≤ 12)
    (hd1 : 1 ≤ d) (hd2 : d ≤ daysInMonth (y : Int) mo)
    (hh : h ≤ 23) (hmi : mi ≤ 59) (hs : s ≤ 59) (hoff : ref.offset = 0) :
    parsePart (renderDT y mo d h mi s) "%Y-%m-%d %H:%M:%S" ref true ltz =
      .ok ⟨⟨(y : Int), mo, d, h, mi, s, 0⟩, 0⟩ := by
  have hd31 : d ≤ 31 := le_trans hd2 (daysInMonth_le_31 (y : Int) mo)
  have hcp := chronoParse_fmt3 y mo d h mi s hy hm1 hm2 hd1 hd31 hh hmi hs
  have hcomp : completeLoop fieldOrder
      ⟨some (y : Int), some (mo : Int), some (d : Int),
        some ((h : Int) / 12), some ((h : Int) % 12), some (mi : Int),
        some (s : Int), none, none⟩ ref true =
      .ok ⟨some (y : Int), some (mo : Int), some (d : Int),
        some ((h : Int) / 12), some ((h : Int) % 12), some (mi : Int),
        some (s : Int), some 0, none⟩ := rfl
  have hy1 : chronoMinYear ≤ (y : Int) := by simp only [chronoMinYear]; omega
  have hy2 : (y : Int) ≤ chronoMaxYear := by
    simp only [chronoMaxYear]
    omega
  have hnaive := toNaiveDT_fields (y : Int) mo d h mi s 0 hy1 hy2 hm1 hm2 hd1 hd2
    hh hmi hs (by omega)
  simp only [Nat.cast_zero] at hnaive
  simp only [parsePart, hcp, Option.isNone, hcomp, hnaive, Option.isSome, hoff,
    if_true, if_false, ite_true, ite_false]
  rfl

/-- C9: a complete calendar string "YYYY-MM-DD HH:MM:SS" (rendered from any
in-range field values) is claimed by its first applicable catalog pattern —
the two patterns tried before it leave a remainder and fail with TOO_LONG —
and parsing against any zero-offset reference returns exactly the literal
field values written in the string, at offset +00:00 (round-trip). -/
theorem c9_calendar_roundtrip (y mo d h mi s : Nat) (ref : DateTimeFO)
    (ltz : LocalTz) (hy : y ≤ 9999) (hm1 : 1 ≤ mo) (hm2 : mo ≤ 12)
    (hd1 : 1 ≤ d) (hd2 : d ≤ daysInMonth (y : Int) mo)
    (hh : h ≤ 23) (hmi : mi ≤ 59) (hs : s ≤ 59) (hoff : ref.offset = 0) :
    chronoParse "%Y-%m-%d" (renderDT y mo d h mi s) = .error .tooLong ∧
    chronoParse "%Y-%m-%d %H:%M" (renderDT y mo d h mi s) = .error .tooLong ∧
    parseWithReference (renderDT y mo d h mi s) ref ltz =
      .ok ⟨⟨(y : Int), mo, d, h, mi, s, 0⟩, 0⟩ := by
  have hd31 : d ≤ 31 := le_trans hd2 (daysInMonth_le_31 (y : Int) mo)
  have hcp1 := chronoParse_fmt1 y mo d h mi s hy hm1 hm2 hd1 hd31
  have hcp2 := chronoParse_fmt2 y mo d h mi s hy hm1 hm2 hd1 hd31 hh hmi
  have hp3 := parsePart_fmt3 y mo d h mi s ref ltz hy hm1 hm2 hd1 hd2 hh hmi hs hoff
  have hp1 : parsePart (renderDT y mo d h mi s) "%Y-%m-%d" ref true ltz =
      .err .tooLong := by
    simp only [parsePart, hcp1]
  have hp2 : parsePart (renderDT y mo d h mi s) "%Y-%m-%d %H:%M" ref true ltz =
      .err .tooLong := by
    simp only [parsePart, hcp2]
  have hne : renderDT y mo d h mi s ≠ "" := fun hcon =>
    List.cons_ne_nil _ _ (congrArg String.data hcon)
  refine ⟨hcp1, hcp2, ?_⟩
  simp only [parseWithReference, if_neg hne, TIMEPARSER_FORMATS, tryFormats,
    hp1, hp2, hp3]

/-- C9 witness: the spec's example.  The renderer really produces the string
"2015-02-01 23:22:12", and parsing it against the UTC reference
2014-07-08T09:10:11+00:00 yields 2015-02-01T23:22:12+00:00. -/
theorem c9_calendar_roundtrip_witness :
    renderDT 2015 2 1 23 22 12 = "2015-02-01 23:22:12" ∧
    parseWithReference "2015-02-01 23:22:12" refTest ltzUTC =
      .ok ⟨⟨2015, 2, 1, 23, 22, 12, 0⟩, 0⟩ := by
  refine ⟨by decide, ?_⟩
  have h := (c9_calendar_roundtrip 2015 2 1 23 22 12 refTest ltzUTC
    (by decide) (by decide) (by decide) (by decide) (by decide)
    (by decide) (by decide) (by decide) rfl).2.2
  exact (by decide : renderDT 2015 2 1 23 22 12 = "2015-02-01 23:22:12") ▸ h
